import Mathlib

/-!
# chinaran/httputil: a shallow embedding and its specification checks

The development embeds the Go package `httputil` (files `request.go`,
`error.go`, `trace.go`, `dump.go`) and proves or refutes statements of its
natural-language specification.

Modelling conventions.

* A Go `string` and a Go `[]byte` are both finite byte sequences, so the
  conversions `string(b)` and `[]byte(s)` are the identity on `List UInt8`.
  Literals of the source are ASCII and are written with `lit`.
* A Go `map[string]string` is a reference: the options record stores an
  address and the contents live in the `World`.  Contents are association
  lists with unique keys; two maps are equal when every key looks up the same.
* The `World` has one store for each Go type that a pointer of the interface
  can point to.  Pointers of one type can alias: a response slot of type
  `*int` may be the very cell the status code is stored in, and a response
  slot that is a map may be the map the header option refers to.
* A pointer that the source tests for `nil`, or that a caller can set to
  `nil` through an option, is an `Option`; dereferencing `none` is a panic,
  reported as `Result.panic`.
* Function values handed in by the caller (marshal, unmarshal, judge, log
  sink, transport) are not nil, pure and total, and a payload or slot pointer
  inside a non-nil interface value is a valid pointer; the standard library
  (URL parsing, request construction, wire dumps, the transport, JSON, the
  order in which `range` visits a map) is a parameter collected in `Env`.
  The elapsed time of the log line is left out.
-/

namespace Httputil

/-! ## Byte strings -/

/-- Go `[]byte`. -/
abbrev Bytes := List UInt8

/-- Go `string`: an immutable byte sequence. -/
abbrev GoString := List UInt8

/-- An ASCII source literal as a Go string. -/
def lit (s : String) : GoString := s.toList.map (fun c => UInt8.ofNat c.toNat)

/-! ## `map[string]string` and `http.Header` -/

/-- Contents of a Go `map[string]string`. -/
abbrev GoMap := List (GoString × GoString)

/-- The lookup `v, ok := m[k]`. -/
def GoMap.get : GoMap → GoString → Option GoString
  | [], _ => none
  | (k', v) :: m, k => if k' = k then some v else GoMap.get m k

/-- The assignment `m[k] = v`. -/
def GoMap.set : GoMap → GoString → GoString → GoMap
  | [], k, v => [(k, v)]
  | (k', v') :: m, k, v => if k' = k then (k', v) :: m else (k', v') :: GoMap.set m k v

/-- Contents of a Go `http.Header`, a `map[string][]string`. -/
abbrev Header := List (GoString × List GoString)

/-- The lookup `h[k]` of a header map; a missing key reads as the nil slice. -/
def Header.lookup : Header → GoString → List GoString
  | [], _ => []
  | (k', vs) :: h, k => if k' = k then vs else Header.lookup h k

/-- The assignment `h[k] = vs` of a header map. -/
def Header.assign : Header → GoString → List GoString → Header
  | [], k, vs => [(k, vs)]
  | (k', vs') :: h, k, vs =>
    if k' = k then (k', vs) :: h else (k', vs') :: Header.assign h k vs

/-- Go `textproto.validHeaderFieldByte`: the token characters of RFC 7230. -/
def validHeaderFieldByte (c : UInt8) : Bool :=
  (48 ≤ c && c ≤ 57) || (97 ≤ c && c ≤ 122) || (65 ≤ c && c ≤ 90) ||
  c == 33 || c == 35 || c == 36 || c == 37 || c == 38 || c == 39 || c == 42 ||
  c == 43 || c == 45 || c == 46 || c == 94 || c == 95 || c == 96 || c == 124 ||
  c == 126

/-- The canonicalising loop of Go `textproto.canonicalMIMEHeaderKey`: upper
case for the first letter and for a letter after a dash, lower case elsewhere. -/
def canonicalLoop : Bool → List UInt8 → List UInt8
  | _, [] => []
  | upper, c :: s =>
    let c' : UInt8 :=
      if upper && (97 ≤ c && c ≤ 122) then c - 32
      else if !upper && (65 ≤ c && c ≤ 90) then c + 32
      else c
    c' :: canonicalLoop (c' == 45) s

/-- Go `textproto.CanonicalMIMEHeaderKey`: a key holding a byte that is not
a token character is returned unchanged. -/
def CanonicalMIMEHeaderKey (s : GoString) : GoString :=
  if s.all validHeaderFieldByte then canonicalLoop true s else s

/-- Go `http.Header.Get`: the first value stored under the canonical form of
the key, or the empty string. -/
def Header.Get (h : Header) (key : GoString) : GoString :=
  match Header.lookup h (CanonicalMIMEHeaderKey key) with
  | [] => []
  | v :: _ => v

/-- Go `http.Header.Set`: the canonical form of the key is mapped to the one
value. -/
def Header.Set (h : Header) (key value : GoString) : Header :=
  Header.assign h (CanonicalMIMEHeaderKey key) [value]

/-! ## trace.go -/

/-- The allowlist `incommingHeaders` of `ForwardHeaders`. -/
def incommingHeaders : List GoString :=
  [ lit "x-request-id",
    lit "x-ot-span-context",
    lit "x-datadog-trace-id",
    lit "x-datadog-parent-id",
    lit "x-datadog-sampling-priority",
    lit "traceparent",
    lit "tracestate",
    lit "x-cloud-trace-context",
    lit "grpc-trace-bin",
    lit "x-b3-traceid",
    lit "x-b3-spanid",
    lit "x-b3-parentspanid",
    lit "x-b3-sampled",
    lit "x-b3-flags",
    lit "sw8",
    lit "user-agent",
    lit "cookie",
    lit "authorization",
    lit "jwt" ]

/-- One iteration of the loop of `ForwardHeaders`. -/
def forwardStep (headers : Header) (forwardHeaders : GoMap) (key : GoString) : GoMap :=
  let val := Header.Get headers key
  if val ≠ [] then GoMap.set forwardHeaders key val else forwardHeaders

/-- The Go function `ForwardHeaders` of trace.go. -/
def ForwardHeaders (headers : Header) : GoMap :=
  incommingHeaders.foldl (forwardStep headers) []

/-! ## dump.go -/

/-- Go `bytes.ReplaceAll` for a one-byte pattern, as the call site uses it. -/
def ReplaceAll : Bytes → UInt8 → Bytes → Bytes
  | [], _, _ => []
  | c :: s, old, new =>
    if c = old then new ++ ReplaceAll s old new else c :: ReplaceAll s old new

/-- Go `bytes.TrimRight` for an ASCII cutset: every trailing byte that occurs
in the cutset is removed. -/
def TrimRight (s : Bytes) (cutset : GoString) : Bytes :=
  (s.reverse.dropWhile (fun c => cutset.contains c)).reverse

/-- The Go function `printCurlLikeDump` of dump.go; the value is what `fmt.Printf` writes. -/
def printCurlLikeDump (data : Bytes) (lineStart : GoString) : Bytes :=
  let start := (10 : UInt8) :: lineStart
  let tmp := ReplaceAll data 10 start
  let tmp := TrimRight tmp lineStart
  lineStart ++ tmp

/-! ## error.go -/

/-- The Go type `RequestError` of error.go. -/
structure RequestError where
  Code : Int
  Message : GoString
deriving DecidableEq

/-- A non-nil Go `error` value.  `request p` is a value of the package's type
`*RequestError`, with `none` for the nil pointer of that type.  `other msg
asTarget unwrap` is an error of any other type: its text, what its `As`
method does when `errors.As` hands it a `**RequestError` target (`none`:
there is no such method or it answers false; `some p`: it answers true and
leaves the pointer `p` in the target), and what its `Unwrap` method yields
(no error, one error, or several). -/
inductive GoError where
  | request (p : Option RequestError)
  | other (msg : GoString) (asTarget : Option (Option RequestError)) (unwrap : List GoError)

/-- Decimal text of an integer, the `%d` verb. -/
def fmtInt (n : Int) : GoString := lit (toString n)

/-- The `Error` method; on the nil `*RequestError` it dereferences the nil
pointer and panics, which is the result `none`. -/
def GoError.Error : GoError → Option GoString
  | .request (some e) =>
    some (lit "Status Code " ++ fmtInt e.Code ++ lit ", Message: " ++ e.Message)
  | .request none => none
  | .other msg _ _ => some msg

/-- The text the `%s` verb of `fmt` gives for an error: the result of `Error`,
and `<nil>` where `Error` panics on a nil receiver. -/
def GoError.fmtS (err : GoError) : GoString :=
  match err.Error with
  | some text => text
  | none => lit "<nil>"

/-- The Go function `NewRequestError` of error.go. -/
def NewRequestError (statusCode : Int) (message : GoString) : GoError :=
  .request (some { Code := statusCode, Message := message })

mutual
/-- Go `errors.As` with the target `&tmp` of error.go, a `**RequestError`.
On each error it first asks whether the error is itself a `*RequestError`,
then asks the `As` method of the error, then goes on with what the error
unwraps to, depth first.  The result is `none` when `errors.As` answers
false and `some p` when it answers true and `tmp` holds `p`. -/
def errorsAs : GoError → Option (Option RequestError)
  | .request p => some p
  | .other _ (some p) _ => some p
  | .other _ none us => errorsAsList us
/-- The loop of `errors.As` over the result of `Unwrap() []error`. -/
def errorsAsList : List GoError → Option (Option RequestError)
  | [] => none
  | e :: es =>
    match errorsAs e with
    | some r => some r
    | none => errorsAsList es
end

/-- The Go function `GetErrorCode` of error.go.  The argument `none` is the
nil error; the result `none` is the panic of `tmp.Code` on a nil `tmp`. -/
def GetErrorCode (err : Option GoError) : Option (Int × Bool) :=
  match err.bind errorsAs with
  | some (some tmp) => some (tmp.Code, true)
  | some none => none
  | none => some (0, false)

/-- The Go function `GetErrorMessage` of error.go.  The result `none` is a
panic: of `tmp.Message` on a nil `tmp`, or of `err.Error()` on the nil
error. -/
def GetErrorMessage (err : Option GoError) : Option GoString :=
  match err.bind errorsAs with
  | some (some tmp) => some tmp.Message
  | some none => none
  | none => err.bind GoError.Error

/-- The Go function `IsErrorCode` of error.go.  The result `none` is the
panic of `tmp.Code` on a nil `tmp`. -/
def IsErrorCode (err : Option GoError) (code : Int) : Option Bool :=
  match err.bind errorsAs with
  | some (some tmp) => some (if tmp.Code = code then true else false)
  | some none => none
  | none => some false

/-! ## request.go: the data model -/

/-- The store update `f[a] := v` on cells addressed by number. -/
def setAt {α : Type} (f : Nat → α) (a : Nat) (v : α) : Nat → α :=
  fun x => if x = a then v else f x

/-- One call of a `PrintfFunc` by `requestLog`: the sink that was called and
the arguments other than the elapsed time. -/
structure LogLine where
  printfer : Nat
  statusCode : Int
  method : GoString
  url : GoString
deriving DecidableEq

/-- What the argument `v interface{}` of a marshal or unmarshal function
designates: an `int`, a `map[string]string`, or a value of another type,
taken from `V`. -/
inductive Target (V : Type) where
  | int (n : Int)
  | map (m : GoMap)
  | val (v : V)

/-- The Go type `MarshalFunc` of request.go. -/
abbrev MarshalFunc (V : Type) := Target V → Except GoError Bytes

/-- The Go type `UnmarshalFunc` of request.go: from the data and what the
target holds, what the target holds afterwards and the error. -/
abbrev UnmarshalFunc (V : Type) := Bytes → Target V → Target V × Option GoError

/-- The Go type `StatusCodeJudgeFunc` of request.go. -/
abbrev StatusCodeJudgeFunc := Int → Bool

/-- The Go type `reqOptions` of request.go.  `header` is the address of a map or the nil
map, `statusCode` the address of an `int` or the nil pointer, `httpClient`
and `printfer` name a client and a log sink. -/
structure reqOptions (V : Type) where
  httpClient : Nat
  timeout : Int
  header : Option Nat
  marshaler : MarshalFunc V
  unmarshaler : UnmarshalFunc V
  logTimeCost : Bool
  dumpRequest : Bool
  dumpResponse : Bool
  printfer : Nat
  codeJudger : StatusCodeJudgeFunc
  statusCode : Option Nat

/-- Everything a call can read or write besides its own locals, one store for
each Go type: the `int` cells (the status cell of the options and any `*int`
a caller passes are among them), the `map[string]string` objects (the header
maps and any map a caller passes) with the next free map address, the
`[]byte` cells, the `string` cells, the cells of the other types, standard
output and the lines handed to log sinks. -/
structure World (V : Type) where
  ints : Nat → Int
  maps : Nat → GoMap
  nextMap : Nat
  byteSlots : Nat → Bytes
  stringSlots : Nat → GoString
  valSlots : Nat → V
  stdout : Bytes
  logs : List LogLine

/-- The Go type `ReqOptionFunc` of request.go, applied to the record behind the non-nil
pointer `&opt` that `HttpRequest` passes: the returned error, the record and
the world afterwards. -/
abbrev ReqOptionFunc (V : Type) :=
  reqOptions V → World V → Option GoError × reqOptions V × World V

variable {V : Type}

/-- The Go function `WithClient` of request.go. -/
def WithClient (client : Option Nat) : ReqOptionFunc V := fun opt w =>
  match client with
  | none => (none, opt, w)
  | some c => (none, { opt with httpClient := c }, w)

/-- The Go function `WithTimeout` of request.go. -/
def WithTimeout (timeout : Int) : ReqOptionFunc V := fun opt w =>
  (none, { opt with timeout := timeout }, w)

/-- The Go function `WithHeader` of request.go: the record refers to the caller's map. -/
def WithHeader (header : Option Nat) : ReqOptionFunc V := fun opt w =>
  match header with
  | none => (none, opt, w)
  | some m => (none, { opt with header := some m }, w)

/-- The loop `for k, v := range m { dst[k] = v }`, on the entries in list
order; the keys of a map are distinct, so the order does not change the
result (`copyInto_perm`). -/
def copyInto (dst m : GoMap) : GoMap :=
  m.foldl (fun acc kv => GoMap.set acc kv.1 kv.2) dst

/-- The Go function `WithTraceHeaders` of request.go: a nil header map of the record is
replaced by a fresh map, then the forwarded entries are written into the map
the record refers to. -/
def WithTraceHeaders (headers : Option Header) : ReqOptionFunc V := fun opt w =>
  match headers with
  | none => (none, opt, w)
  | some hs =>
    match opt.header with
    | none =>
      let r := w.nextMap
      (none, { opt with header := some r },
        { w with maps := setAt w.maps r (copyInto [] (ForwardHeaders hs)), nextMap := r + 1 })
    | some r =>
      (none, opt, { w with maps := setAt w.maps r (copyInto (w.maps r) (ForwardHeaders hs)) })

/-- The Go function `WithMarshal` of request.go. -/
def WithMarshal (marshaler : Option (MarshalFunc V)) : ReqOptionFunc V := fun opt w =>
  match marshaler with
  | none => (none, opt, w)
  | some f => (none, { opt with marshaler := f }, w)

/-- The Go function `WithUnmarshal` of request.go. -/
def WithUnmarshal (unmarshaler : Option (UnmarshalFunc V)) : ReqOptionFunc V := fun opt w =>
  match unmarshaler with
  | none => (none, opt, w)
  | some f => (none, { opt with unmarshaler := f }, w)

/-- The Go function `WithLogTimeCost` of request.go, with its variadic sinks. -/
def WithLogTimeCost (printfer : List Nat) : ReqOptionFunc V := fun opt w =>
  match printfer with
  | [] => (none, { opt with logTimeCost := true }, w)
  | p :: _ => (none, { opt with logTimeCost := true, printfer := p }, w)

/-- The Go function `WithDumpRequest` of request.go. -/
def WithDumpRequest (dumpRequest dumpResponse : Bool) : ReqOptionFunc V := fun opt w =>
  (none, { opt with dumpRequest := dumpRequest, dumpResponse := dumpResponse }, w)

/-- The Go function `WithStatusCodeJudge` of request.go. -/
def WithStatusCodeJudge (codeJudger : Option StatusCodeJudgeFunc) : ReqOptionFunc V :=
  fun opt w =>
  match codeJudger with
  | none => (none, opt, w)
  | some f => (none, { opt with codeJudger := f }, w)

/-- The Go function `defaultCodeJudger` of request.go. -/
def defaultCodeJudger (statusCode : Int) : Bool :=
  if statusCode < 200 || statusCode ≥ 300 then false else true

/-- The Go function `StoreStatusCode` of request.go: the pointer is stored as it is given. -/
def StoreStatusCode (statusCode : Option Nat) : ReqOptionFunc V := fun opt w =>
  (none, { opt with statusCode := statusCode }, w)

/-! ## request.go: the standard library as a parameter -/

/-- What `url.Parse` yields, as far as `HttpRequest` looks at it. -/
structure URL where
  Scheme : GoString
  Rest : GoString
deriving DecidableEq

/-- The request handed to the transport: method, address, headers, body (the
nil reader when no payload is given), the caller's context and the timeout
`context.WithTimeout` adds to it. -/
structure Request where
  Method : GoString
  URL : GoString
  Header : Header
  Body : Option Bytes
  Ctx : Nat
  Timeout : Int
deriving DecidableEq

/-- What the transport answers: the status code and what `io.ReadAll` gets
from the body. -/
structure Response where
  StatusCode : Int
  Body : Except GoError Bytes

/-- The standard library functions `HttpRequest` calls, and the order in
which a `range` loop visits the entries of a map, which Go leaves open: any
rearrangement of the entries. -/
structure Env (V : Type) where
  urlParse : GoString → Except GoError URL
  urlString : URL → GoString
  newRequest : GoString → GoString → Option GoError
  Do : Nat → Request → Except GoError Response
  DumpRequestOut : Request → Except GoError Bytes
  DumpResponse : Response → Except GoError Bytes
  jsonMarshal : MarshalFunc V
  jsonUnmarshal : UnmarshalFunc V
  rangeOrder : GoMap → GoMap
  rangeOrder_perm : ∀ m : GoMap, (rangeOrder m).Perm m

/-- Address of the map `defaultReqOption.header` refers to. -/
def defaultHeaderRef : Nat := 0

/-- Address of the cell `defaultReqOption.statusCode` points to. -/
def defaultStatusRef : Nat := 0

/-- The package variable `defaultReqOption`; client 0 is the `&http.Client{}`
of the initialiser and sink 0 is `logger.Printf`. -/
def defaultReqOption (env : Env V) : reqOptions V :=
  { httpClient := 0
    timeout := 30 * 1000000000
    header := some defaultHeaderRef
    marshaler := env.jsonMarshal
    unmarshaler := env.jsonUnmarshal
    logTimeCost := false
    dumpRequest := false
    dumpResponse := false
    printfer := 0
    codeJudger := defaultCodeJudger
    statusCode := some defaultStatusRef }

/-- Contents of the default header map when the package is initialised. -/
def defaultHeader : GoMap :=
  [ (lit "Accept", lit "application/json"),
    (lit "Content-Type", lit "application/json;charset=UTF-8") ]

/-- The world right after package initialisation: the default header map
and the default status cell are allocated, nothing has been printed. -/
def World.init (v : V) : World V :=
  { ints := fun _ => 0
    maps := fun a => if a = defaultHeaderRef then defaultHeader else []
    nextMap := 1
    byteSlots := fun _ => []
    stringSlots := fun _ => []
    valSlots := fun _ => v
    stdout := []
    logs := [] }

/-! ## request.go: `HttpRequest` -/

/-- How a call ends: it returns an error value (`none` is nil) or panics. -/
inductive Result where
  | ret (err : Option GoError)
  | panic

/-- The request payload `req` behind its interface value: a `*[]byte`, a
`*string` or any other value, each given by what it designates when the call
starts. -/
inductive ReqPayload (V : Type) where
  | bytes (d : Bytes)
  | str (s : GoString)
  | other (t : Target V)

/-- A value of interface type that is neither a `*[]byte` nor a `*string`,
given by what it designates in the world: an `*int` by its cell, a map (or a
pointer to a variable that holds it) by the address of the map, anything else
by a cell of the other types. -/
inductive Pointer where
  | int (cell : Nat)
  | map (ref : Nat)
  | other (slot : Nat)
deriving DecidableEq

/-- The response slot `resp` behind its interface value: a `*[]byte`, a
`*string`, or any other value. -/
inductive RespSlot where
  | bytes (slot : Nat)
  | str (slot : Nat)
  | ptr (p : Pointer)
deriving DecidableEq

/-- What a pointer designates in a world. -/
def World.load (w : World V) : Pointer → Target V
  | .int cell => .int (w.ints cell)
  | .map ref => .map (w.maps ref)
  | .other slot => .val (w.valSlots slot)

/-- The world after an unmarshal function has left `t` in what the pointer
designates; a function cannot change the type of its target, so a `t` of
another type leaves the world as it is. -/
def World.save (w : World V) : Pointer → Target V → World V
  | .int cell, .int n => { w with ints := setAt w.ints cell n }
  | .map ref, .map m => { w with maps := setAt w.maps ref m }
  | .other slot, .val v => { w with valSlots := setAt w.valSlots slot v }
  | _, _ => w

/-- The value has the type of what the pointer designates. -/
def Pointer.fits : Pointer → Target V → Bool
  | .int _, .int _ => true
  | .map _, .map _ => true
  | .other _, .val _ => true
  | _, _ => false

/-- The Go function `CurlLikeDumpRequest` of dump.go. -/
def CurlLikeDumpRequest (env : Env V) (req : Request) (w : World V) : World V :=
  match env.DumpRequestOut req with
  | .error _ => w
  | .ok data => { w with stdout := w.stdout ++ printCurlLikeDump data (lit "> ") }

/-- The Go function `CurlLikeDumpResponse` of dump.go. -/
def CurlLikeDumpResponse (env : Env V) (resp : Response) (w : World V) : World V :=
  match env.DumpResponse resp with
  | .error _ => w
  | .ok data => { w with stdout := w.stdout ++ printCurlLikeDump data (lit "< ") }

/-- The loop over `opts` in `HttpRequest`: the first error stops it. -/
def applyOpts : List (ReqOptionFunc V) → reqOptions V → World V →
    Option GoError × reqOptions V × World V
  | [], opt, w => (none, opt, w)
  | optFunc :: rest, opt, w =>
    match optFunc opt w with
    | (some err, opt1, w1) => (some err, opt1, w1)
    | (none, opt1, w1) => applyOpts rest opt1 w1

/-- The deferred call of `requestLog`, run when `HttpRequest` leaves after
the options are resolved: it reads the status cell of the record. -/
def deferredLog (opt : reqOptions V) (method addr : GoString)
    (r : Result × World V) : Result × World V :=
  if opt.logTimeCost then
    match opt.statusCode with
    | none => (.panic, r.2)
    | some cell =>
      (r.1, { r.2 with logs := r.2.logs ++
        [{ printfer := opt.printfer, statusCode := r.2.ints cell, method := method, url := addr }] })
  else r

/-- The type switch that encodes the request payload. -/
def encodePayload (opt : reqOptions V) : Option (ReqPayload V) → Except GoError (Option Bytes)
  | none => .ok none
  | some (.bytes d) => .ok (some d)
  | some (.str s) => .ok (some s)
  | some (.other t) =>
    match opt.marshaler t with
    | .error err => .error err
    | .ok reqData => .ok (some reqData)

/-- The loop `for k, v := range opt.header { request.Header.Set(k, v) }` on
the entries in the order the loop visits them. -/
def setHeaders (visited : GoMap) : Header :=
  visited.foldl (fun h kv => Header.Set h kv.1 kv.2) []

/-- The map a header field of the record reads as: the nil map is empty. -/
def headerContents (w : World V) : Option Nat → GoMap
  | none => []
  | some r => w.maps r

/-- The part of `HttpRequest` up to the call of the transport (lines 231 to 284): either
the call has already ended, or the resolved record, the request to send and
the world at that point. -/
def prepare (env : Env V) (ctx : Nat) (method addr : GoString)
    (req : Option (ReqPayload V)) (opts : List (ReqOptionFunc V)) (w : World V) :
    Except (Result × World V) (reqOptions V × Request × World V) :=
  match env.urlParse addr with
  | .error err =>
    .error (.ret (some (.other (lit "bad request url: s" ++ err.fmtS) none [])), w)
  | .ok u0 =>
    let u : URL := if u0.Scheme = [] then { u0 with Scheme := lit "http" } else u0
    match applyOpts opts (defaultReqOption env) w with
    | (some err, _, w1) => .error (.ret (some err), w1)
    | (none, opt, w1) =>
      match encodePayload opt req with
      | .error err => .error (deferredLog opt method addr (.ret (some err), w1))
      | .ok reqBody =>
        match env.newRequest method (env.urlString u) with
        | some err => .error (deferredLog opt method addr (.ret (some err), w1))
        | none =>
          let request : Request :=
            { Method := method, URL := env.urlString u,
              Header := setHeaders (env.rangeOrder (headerContents w1 opt.header)),
              Body := reqBody, Ctx := ctx, Timeout := opt.timeout }
          let w2 := if opt.dumpRequest then CurlLikeDumpRequest env request w1 else w1
          .ok (opt, request, w2)

/-- The part of `HttpRequest` once the transport has answered (lines 290 to 318). -/
def receive (env : Env V) (opt : reqOptions V) (resp : Option RespSlot)
    (response : Response) (w : World V) : Result × World V :=
  let w1 := if opt.dumpResponse then CurlLikeDumpResponse env response w else w
  match response.Body with
  | .error err => (.ret (some err), w1)
  | .ok respData =>
    match opt.statusCode with
    | none => (.panic, w1)
    | some cell =>
      let w2 : World V := { w1 with ints := setAt w1.ints cell response.StatusCode }
      if !opt.codeJudger (w2.ints cell) then
        (.ret (some (NewRequestError (w2.ints cell) respData)), w2)
      else
        match resp with
        | none => (.ret none, w2)
        | some (.bytes slot) =>
          (.ret none, { w2 with byteSlots := setAt w2.byteSlots slot respData })
        | some (.str slot) =>
          (.ret none, { w2 with stringSlots := setAt w2.stringSlots slot respData })
        | some (.ptr p) =>
          let out := opt.unmarshaler respData (w2.load p)
          let w3 : World V := w2.save p out.1
          match out.2 with
          | some err =>
            (.ret (some (.other
              (lit "unmarshal " ++ respData ++ lit " failed: " ++ err.fmtS) none [])), w3)
          | none => (.ret none, w3)

/-- The Go function `HttpRequest` of request.go. -/
def HttpRequest (env : Env V) (ctx : Nat) (method addr : GoString)
    (req : Option (ReqPayload V)) (resp : Option RespSlot)
    (opts : List (ReqOptionFunc V)) (w : World V) : Result × World V :=
  match prepare env ctx method addr req opts w with
  | .error r => r
  | .ok (opt, request, w1) =>
    deferredLog opt method addr
      (match env.Do opt.httpClient request with
       | .error err => (.ret (some err), w1)
       | .ok response => receive env opt resp response w1)

/-- The Go function `Get` of request.go. -/
def Get (env : Env V) (ctx : Nat) (url : GoString) (resp : Option RespSlot)
    (opts : List (ReqOptionFunc V)) (w : World V) : Result × World V :=
  HttpRequest env ctx (lit "GET") url none resp opts w

/-- The Go function `Post` of request.go. -/
def Post (env : Env V) (ctx : Nat) (url : GoString) (req : Option (ReqPayload V))
    (resp : Option RespSlot) (opts : List (ReqOptionFunc V)) (w : World V) :
    Result × World V :=
  HttpRequest env ctx (lit "POST") url req resp opts w

/-- The Go function `Put` of request.go. -/
def Put (env : Env V) (ctx : Nat) (url : GoString) (req : Option (ReqPayload V))
    (resp : Option RespSlot) (opts : List (ReqOptionFunc V)) (w : World V) :
    Result × World V :=
  HttpRequest env ctx (lit "PUT") url req resp opts w

/-- The Go function `Patch` of request.go. -/
def Patch (env : Env V) (ctx : Nat) (url : GoString) (req : Option (ReqPayload V))
    (resp : Option RespSlot) (opts : List (ReqOptionFunc V)) (w : World V) :
    Result × World V :=
  HttpRequest env ctx (lit "PATCH") url req resp opts w

/-- The Go function `Delete` of request.go. -/
def Delete (env : Env V) (ctx : Nat) (url : GoString) (resp : Option RespSlot)
    (opts : List (ReqOptionFunc V)) (w : World V) : Result × World V :=
  HttpRequest env ctx (lit "DELETE") url none resp opts w

/-- The package's own options, as a caller writes them. -/
inductive OptCall (V : Type) where
  | withClient (client : Option Nat)
  | withTimeout (timeout : Int)
  | withHeader (header : Option Nat)
  | withTraceHeaders (headers : Option Header)
  | withMarshal (marshaler : Option (MarshalFunc V))
  | withUnmarshal (unmarshaler : Option (UnmarshalFunc V))
  | withLogTimeCost (printfer : List Nat)
  | withDumpRequest (dumpRequest dumpResponse : Bool)
  | withStatusCodeJudge (codeJudger : Option StatusCodeJudgeFunc)
  | storeStatusCode (statusCode : Option Nat)

/-- The option function a call of one of the package's options returns. -/
def OptCall.func : OptCall V → ReqOptionFunc V
  | .withClient c => WithClient c
  | .withTimeout t => WithTimeout t
  | .withHeader h => WithHeader h
  | .withTraceHeaders h => WithTraceHeaders h
  | .withMarshal f => WithMarshal f
  | .withUnmarshal f => WithUnmarshal f
  | .withLogTimeCost p => WithLogTimeCost p
  | .withDumpRequest a b => WithDumpRequest a b
  | .withStatusCodeJudge f => WithStatusCodeJudge f
  | .storeStatusCode p => StoreStatusCode p

/-! ## What the specification says, where it is compared with the code -/

/-- The transformed data of the wire dump less its dangling prefix: the data
with every newline followed by the prefix, from which one trailing prefix is
removed when the transformed data ends with it. -/
def afterDangling (data : Bytes) (p : GoString) : Bytes :=
  let t := ReplaceAll data 10 ((10 : UInt8) :: p)
  if p.isSuffixOf t then t.take (t.length - p.length) else t

/-- The wire dump as the specification words it: the prefix, then the
transformed data less its dangling prefix. -/
def dumpAsSpecified (data : Bytes) (p : GoString) : Bytes :=
  p ++ afterDangling data p

mutual
/-- The wrapping chain of an error: the error itself, then the chains of what
it unwraps to, in the order `errors.As` visits them. -/
def GoError.chain : GoError → List GoError
  | .request p => [.request p]
  | .other msg a us => .other msg a us :: chainList us
/-- The chains of a list of errors, one after the other. -/
def chainList : List GoError → List GoError
  | [] => []
  | e :: es => e.chain ++ chainList es
end

/-- The error is of the package's type `*RequestError`. -/
def GoError.isRequestError : GoError → Bool
  | .request _ => true
  | .other _ _ _ => false

/-- The error has an `As` method that answers true to a `**RequestError`
target. -/
def GoError.answersAs : GoError → Bool
  | .other _ (some _) _ => true
  | _ => false

/-! ## Test fixtures -/

/-- The decimal number a byte sequence of digits spells. -/
def parseDigits (b : Bytes) : Option Int :=
  if b = [] then none
  else b.foldl (fun acc c => acc.bind (fun n =>
    if 48 ≤ c ∧ c ≤ 57 then some (n * 10 + ((c.toNat : Int) - 48)) else none)) (some 0)

/-- A stand-in for `json.Marshal`: an `int` gives its decimal text, a map its
entries one after the other, another value its own bytes. -/
def fixtureMarshal : MarshalFunc Bytes
  | .int n => .ok (fmtInt n)
  | .map m => .ok (m.foldr (fun kv acc => kv.1 ++ lit "=" ++ kv.2 ++ lit ";" ++ acc) [])
  | .val v => .ok v

/-- A stand-in for `json.Unmarshal`: an `int` target takes the number the data
spells, a map target keeps its entries and gains the entry `body`, a target
of another type takes the data. -/
def fixtureUnmarshal : UnmarshalFunc Bytes
  | data, .int old =>
    match parseDigits data with
    | some n => (.int n, none)
    | none => (.int old, some (.other (lit "invalid character") none []))
  | data, .map m => (.map (GoMap.set m (lit "body") data), none)
  | data, .val _ => (.val data, none)

/-- A standard library whose transport is the given function: every address
parses, every request can be built, a map is visited in list order. -/
def testEnv (transport : Request → Except GoError Response) : Env Bytes :=
  { urlParse := fun addr => .ok { Scheme := [], Rest := addr }
    urlString := fun u => u.Scheme ++ lit "://" ++ u.Rest
    newRequest := fun _ _ => none
    Do := fun _ rq => transport rq
    DumpRequestOut := fun rq => .ok (rq.Method ++ lit " / HTTP/1.1\r\n\r\n")
    DumpResponse := fun _ => .ok (lit "HTTP/1.1 200 OK\r\n\r\n")
    jsonMarshal := fixtureMarshal
    jsonUnmarshal := fixtureUnmarshal
    rangeOrder := fun m => m
    rangeOrder_perm := fun m => List.Perm.refl m }

/-- A transport that answers 200 with the body it was sent. -/
def echoTransport (rq : Request) : Except GoError Response :=
  .ok { StatusCode := 200, Body := .ok (rq.Body.getD []) }

/-- A transport that answers with a fixed status code and body. -/
def fixedTransport (code : Int) (body : Bytes) (_ : Request) : Except GoError Response :=
  .ok { StatusCode := code, Body := .ok body }

/-- A transport that fails, as when the deadline passes first. -/
def failingTransport (_ : Request) : Except GoError Response :=
  .error (.other (lit "context deadline exceeded") none [])

/-- The header set of the tests: `Set("x-b3-traceid", "abc")` on an empty one. -/
def b3Header : Header := Header.Set [] (lit "x-b3-traceid") (lit "abc")

/-- The handler of `TestHttpRequest` seen through the transport: GET and
DELETE answer 200 with the common data, POST answers 200 with the request
body, PUT answers 500 with no body, and PATCH answers after 200 ms, so that
a shorter timeout fails first. -/
def testHandler (rq : Request) : Except GoError Response :=
  if rq.Method = lit "GET" ∨ rq.Method = lit "DELETE" then
    .ok { StatusCode := 200, Body := .ok (lit "\x7b\"foo\": \"bar\"\x7d") }
  else if rq.Method = lit "POST" then
    .ok { StatusCode := 200, Body := .ok (rq.Body.getD []) }
  else if rq.Method = lit "PATCH" then
    if rq.Timeout < 200000000 then
      .error (.other (lit "context deadline exceeded") none [])
    else .ok { StatusCode := 200, Body := .ok [] }
  else .ok { StatusCode := 500, Body := .ok [] }

/-- The world of `TestHttpRequest`: the header map literal of the test is at
address 1, the empty map of the response at address 2, and the variable
`statusCode` is the `int` cell 3. -/
def testWorld : World Bytes :=
  { World.init [] with
    maps := fun a => if a = defaultHeaderRef ∨ a = 1 then defaultHeader else []
    nextMap := 3 }

/-- The options of `TestHttpRequest` for the timeout `d`. -/
def testOptions (d : Int) : List (ReqOptionFunc Bytes) :=
  [ WithLogTimeCost [1], WithTimeout d, WithClient (some 1),
    WithMarshal (some fixtureMarshal), WithUnmarshal (some fixtureUnmarshal),
    WithHeader (some 1), WithTraceHeaders (some b3Header),
    WithStatusCodeJudge (some defaultCodeJudger), StoreStatusCode (some 3) ]

/-- The error a call returned; a panic has none. -/
def Result.error : Result → Option GoError
  | .ret err => err
  | .panic => none

/-- The call returned, with the nil error. -/
def Result.isNil : Result → Bool
  | .ret none => true
  | _ => false

/-- A transport that answers 200 with, as body, the value of the request
header `x-b3-traceid`. -/
def traceEchoTransport (rq : Request) : Except GoError Response :=
  .ok { StatusCode := 200, Body := .ok (Header.Get rq.Header (lit "x-b3-traceid")) }

/-- An error that wraps, two levels down and after a sibling without one, a
`*RequestError` with code 404; no error of it has an `As` method. -/
def wrappedNotFound : GoError :=
  .other (lit "outer") none [.other (lit "sibling") none [],
    .other (lit "middle") none
      [NewRequestError 404 (lit "not found"), NewRequestError 500 (lit "x")]]

/-- An error whose chain holds no `*RequestError` and no `As` method. -/
def wrappedPlain : GoError :=
  .other (lit "outer") none [.other (lit "inner") none []]

/-- An error that wraps `NewRequestError 404 nf` and whose own type has an
`As` method that leaves a `*RequestError` with code 1 in the target. -/
def wrappedWithAs : GoError :=
  .other (lit "outer") (some (some { Code := 1, Message := lit "from As" }))
    [NewRequestError 404 (lit "nf")]

/-- An error that wraps nothing and whose type has an `As` method that leaves
a `*RequestError` with code 1 in the target. -/
def plainWithAs : GoError :=
  .other (lit "plain") (some (some { Code := 1, Message := lit "from As" })) []

/-- A world in which a caller has allocated one more map, at address 1,
holding the single entry `Accept: text/plain`. -/
def callerWorld : World Bytes :=
  { World.init [] with
    maps := fun a =>
      if a = defaultHeaderRef then defaultHeader
      else if a = 1 then [(lit "Accept", lit "text/plain")] else []
    nextMap := 2 }

/-- The options record a caller reaches with `WithHeader(m)` for the map `m`
at address 1: its header field is that map. -/
def recordOnCallerMap : reqOptions Bytes :=
  (WithHeader (some 1) (defaultReqOption (testEnv echoTransport)) callerWorld).2.1

/-- An unmarshal function that, like `json.Unmarshal` on a map, keeps what
the target holds and adds the data to it. -/
def mergingUnmarshal : UnmarshalFunc Bytes
  | data, .val old => (.val (old ++ data), none)
  | _, t => (t, none)

/-- A world in which the cell 5 of the other types already holds `x`. -/
def prefilledWorld : World Bytes :=
  { World.init ([] : Bytes) with valSlots := fun a => if a = 5 then lit "x" else [] }

/-- A marshal function unlike the default of the fixture: the bytes of the
value after a `#`. -/
def tagMarshal : MarshalFunc Bytes
  | .val v => .ok ((35 : UInt8) :: v)
  | _ => .error (.other (lit "unsupported") none [])

/-- The unmarshal function that undoes `tagMarshal`. -/
def tagUnmarshal : UnmarshalFunc Bytes
  | (35 : UInt8) :: v, .val _ => (.val v, none)
  | _, t => (t, some (.other (lit "no tag") none []))

/-! ## Auxiliary definitions of the proofs -/

/-- What `errors.As` finds along a list of errors: the answer of the first
error that is a `*RequestError` or has an answering `As` method. -/
def firstAnswer : List GoError → Option (Option RequestError)
  | [] => none
  | .request p :: _ => some p
  | .other _ (some p) _ :: _ => some p
  | .other _ none _ :: rest => firstAnswer rest

/-- Two worlds hold the same values in every cell a caller can point to,
the maps apart. -/
def SameCells (a b : World V) : Prop :=
  a.ints = b.ints ∧ a.byteSlots = b.byteSlots ∧ a.stringSlots = b.stringSlots ∧
    a.valSlots = b.valSlots

/-- What a pointer designates when the response is decoded: what it
designated when the request was sent, or the status code if it is the status
cell. -/
def targetAtDecode (w : World V) (cell : Nat) (code : Int) : Pointer → Target V
  | .int c => .int (if c = cell then code else w.ints c)
  | .map r => .map (w.maps r)
  | .other s => .val (w.valSlots s)

/-- The world in which `receive` has stored the status code. -/
def afterStore (env : Env V) (opt : reqOptions V) (response : Response) (cell : Nat)
    (w : World V) : World V :=
  let w1 := if opt.dumpResponse then CurlLikeDumpResponse env response w else w
  { w1 with ints := setAt w1.ints cell response.StatusCode }

/-! ## Lemmas on maps -/

theorem GoMap.get_set (m : GoMap) (k v k' : GoString) :
    GoMap.get (GoMap.set m k v) k' = if k = k' then some v else GoMap.get m k' := by
  induction m with
  | nil => simp [GoMap.set, GoMap.get]
  | cons p m ih =>
    obtain ⟨a, b⟩ := p
    by_cases hak : a = k
    · subst hak
      by_cases hk : a = k' <;> simp [GoMap.set, GoMap.get, hk]
    · by_cases hk : k = k'
      · subst hk
        simp [GoMap.set, GoMap.get, hak, ih]
      · simp [GoMap.set, GoMap.get, hak, ih, hk]

theorem forwardStep_get (h : Header) (acc : GoMap) (a k : GoString) :
    GoMap.get (forwardStep h acc a) k
      = if a = k ∧ Header.Get h a ≠ [] then some (Header.Get h a) else GoMap.get acc k := by
  unfold forwardStep
  by_cases ha : Header.Get h a = []
  · simp [ha]
  · by_cases hak : a = k
    · subst hak
      simp [ha, GoMap.get_set]
    · simp [ha, hak, GoMap.get_set]

theorem forwardStep_foldl_get (h : Header) (ks : List GoString) (acc : GoMap) (k : GoString) :
    GoMap.get (ks.foldl (forwardStep h) acc) k
      = if k ∈ ks ∧ Header.Get h k ≠ [] then some (Header.Get h k) else GoMap.get acc k := by
  induction ks generalizing acc with
  | nil => simp
  | cons a ks ih =>
    rw [List.foldl_cons, ih, forwardStep_get]
    by_cases hak : a = k
    · subst hak
      by_cases hmem : a ∈ ks <;> by_cases hv : Header.Get h a = [] <;> simp [hmem, hv]
    · have hka : ¬ k = a := fun e => hak e.symm
      by_cases hmem : k ∈ ks <;> by_cases hv : Header.Get h k = [] <;>
        simp [hmem, hv, hak, hka]

theorem GoMap.get_of_not_mem_keys (m : GoMap) (k : GoString)
    (h : k ∉ m.map Prod.fst) : GoMap.get m k = none := by
  induction m with
  | nil => rfl
  | cons p m ih =>
    obtain ⟨a, b⟩ := p
    simp only [List.map_cons, List.mem_cons, not_or] at h
    have hak : ¬ a = k := fun e => h.1 e.symm
    simp [GoMap.get, hak, ih h.2]

theorem GoMap.keys_set (m : GoMap) (k v : GoString) :
    (GoMap.set m k v).map Prod.fst
      = if k ∈ m.map Prod.fst then m.map Prod.fst else m.map Prod.fst ++ [k] := by
  induction m with
  | nil => simp [GoMap.set]
  | cons p m ih =>
    obtain ⟨a, b⟩ := p
    by_cases hak : a = k
    · subst hak
      simp [GoMap.set]
    · have hka : ¬ k = a := fun e => hak e.symm
      by_cases hmem : k ∈ m.map Prod.fst
      · simp only [GoMap.set, hak, if_false, List.map_cons, ih, hmem, if_true, List.mem_cons,
          or_true]
      · simp only [GoMap.set, hak, if_false, List.map_cons, ih, hmem, List.mem_cons, hka,
          or_self, List.cons_append]

theorem GoMap.set_nodup (m : GoMap) (k v : GoString) (h : (m.map Prod.fst).Nodup) :
    ((GoMap.set m k v).map Prod.fst).Nodup := by
  rw [GoMap.keys_set]
  by_cases hmem : k ∈ m.map Prod.fst
  · rw [if_pos hmem]; exact h
  · rw [if_neg hmem]
    exact List.Nodup.append h (List.nodup_singleton k)
      (by
        intro x hx hx'
        rw [List.mem_singleton] at hx'
        subst hx'
        exact hmem hx)

theorem ForwardHeaders_nodup (h : Header) : ((ForwardHeaders h).map Prod.fst).Nodup := by
  have hfold : ∀ (ks : List GoString) (acc : GoMap), (acc.map Prod.fst).Nodup →
      ((ks.foldl (forwardStep h) acc).map Prod.fst).Nodup := by
    intro ks
    induction ks with
    | nil => intro acc hacc; exact hacc
    | cons a ks ih =>
      intro acc hacc
      rw [List.foldl_cons]
      apply ih
      unfold forwardStep
      by_cases ha : Header.Get h a = []
      · simpa [ha] using hacc
      · simpa [ha] using GoMap.set_nodup acc a (Header.Get h a) hacc
  exact hfold incommingHeaders [] List.nodup_nil

theorem copyInto_get (m dst : GoMap) (k : GoString) (hm : (m.map Prod.fst).Nodup) :
    GoMap.get (copyInto dst m) k
      = match GoMap.get m k with
        | some v => some v
        | none => GoMap.get dst k := by
  unfold copyInto
  induction m generalizing dst with
  | nil => simp [GoMap.get]
  | cons p m ih =>
    obtain ⟨a, b⟩ := p
    rw [List.map_cons, List.nodup_cons] at hm
    rw [List.foldl_cons, ih _ hm.2, GoMap.get_set]
    by_cases hak : a = k
    · subst hak
      simp [GoMap.get, GoMap.get_of_not_mem_keys m a hm.1]
    · simp [GoMap.get, hak]

theorem GoMap.get_perm {m' m : GoMap} (hp : m'.Perm m) (hn : (m.map Prod.fst).Nodup)
    (k : GoString) : GoMap.get m' k = GoMap.get m k := by
  induction hp with
  | nil => rfl
  | cons x _ ih =>
    obtain ⟨a, b⟩ := x
    rw [List.map_cons, List.nodup_cons] at hn
    simp only [GoMap.get, ih hn.2]
  | swap x y l =>
    obtain ⟨a, b⟩ := x
    obtain ⟨c, d⟩ := y
    simp only [List.map_cons, List.nodup_cons, List.mem_cons, not_or] at hn
    have hac : ¬ a = c := hn.1.1
    by_cases ha : a = k
    · subst ha
      have hca : ¬ c = a := fun e => hac e.symm
      simp [GoMap.get, hca]
    · simp [GoMap.get, ha]
  | trans h1 h2 ih1 ih2 =>
    have hn2 := (List.Perm.nodup_iff (List.Perm.map Prod.fst h2)).mpr hn
    rw [ih1 hn2, ih2 hn]

/-- The result of the copying loop does not depend on the order in which the
entries of the source map are visited. -/
theorem copyInto_perm {m' m : GoMap} (hp : m'.Perm m) (hn : (m.map Prod.fst).Nodup)
    (dst : GoMap) (k : GoString) :
    GoMap.get (copyInto dst m') k = GoMap.get (copyInto dst m) k := by
  have hn' := (List.Perm.nodup_iff (List.Perm.map Prod.fst hp)).mpr hn
  rw [copyInto_get m' dst k hn', copyInto_get m dst k hn, GoMap.get_perm hp hn]

/-! ## Lemmas on error chains -/

theorem firstAnswer_append (a b : List GoError) :
    firstAnswer (a ++ b)
      = match firstAnswer a with
        | some r => some r
        | none => firstAnswer b := by
  induction a with
  | nil => simp [firstAnswer]
  | cons x a ih =>
    cases x with
    | request p => simp [firstAnswer]
    | other msg t us =>
      cases t with
      | some p => simp [firstAnswer]
      | none => simpa [firstAnswer] using ih

mutual
theorem errorsAs_eq_firstAnswer : ∀ err : GoError, errorsAs err = firstAnswer err.chain
  | .request p => by simp [errorsAs, GoError.chain, firstAnswer]
  | .other msg (some p) us => by simp [errorsAs, GoError.chain, firstAnswer]
  | .other msg none us => by
    simp [errorsAs, GoError.chain, firstAnswer, errorsAsList_eq_firstAnswer us]
theorem errorsAsList_eq_firstAnswer :
    ∀ errs : List GoError, errorsAsList errs = firstAnswer (chainList errs)
  | [] => by simp [errorsAsList, chainList, firstAnswer]
  | e :: es => by
    rw [errorsAsList, chainList, firstAnswer_append, errorsAs_eq_firstAnswer e,
      errorsAsList_eq_firstAnswer es]
end

theorem firstAnswer_of_split (pre post : List GoError) (p : Option RequestError)
    (hpre : ∀ x ∈ pre, x.isRequestError = false ∧ x.answersAs = false) :
    firstAnswer (pre ++ .request p :: post) = some p := by
  induction pre with
  | nil => simp [firstAnswer]
  | cons x pre ih =>
    have hx := hpre x (by simp)
    cases x with
    | request q => simp [GoError.isRequestError] at hx
    | other msg t us =>
      cases t with
      | some q => simp [GoError.answersAs] at hx
      | none =>
        simp only [List.cons_append, firstAnswer]
        exact ih (fun y hy => hpre y (List.mem_cons_of_mem _ hy))

theorem firstAnswer_of_none (l : List GoError)
    (hl : ∀ x ∈ l, x.isRequestError = false ∧ x.answersAs = false) :
    firstAnswer l = none := by
  induction l with
  | nil => simp [firstAnswer]
  | cons x l ih =>
    have hx := hl x (by simp)
    cases x with
    | request q => simp [GoError.isRequestError] at hx
    | other msg t us =>
      cases t with
      | some q => simp [GoError.answersAs] at hx
      | none =>
        simp only [firstAnswer]
        exact ih (fun y hy => hl y (List.mem_cons_of_mem _ hy))

/-! ## Lemmas on the wire dump -/

theorem ReplaceAll_append (a b : Bytes) (old : UInt8) (new : Bytes) :
    ReplaceAll (a ++ b) old new = ReplaceAll a old new ++ ReplaceAll b old new := by
  induction a with
  | nil => simp [ReplaceAll]
  | cons c a ih => by_cases hc : c = old <;> simp [ReplaceAll, hc, ih]

theorem dropWhile_cutset_append (p : GoString) (q rest : List UInt8)
    (hq : ∀ c ∈ q, c ∈ p) :
    List.dropWhile (fun c => p.contains c) (q ++ rest)
      = List.dropWhile (fun c => p.contains c) rest := by
  induction q with
  | nil => rfl
  | cons c q ih =>
    have hc : p.contains c = true := by
      simpa using hq c (by simp)
    rw [List.cons_append, List.dropWhile_cons, if_pos hc]
    exact ih (fun y hy => hq y (List.mem_cons_of_mem _ hy))

theorem TrimRight_append_cutset (x q : Bytes) (p : GoString) (hq : ∀ c ∈ q, c ∈ p) :
    TrimRight (x ++ q) p = TrimRight x p := by
  unfold TrimRight
  rw [List.reverse_append,
    dropWhile_cutset_append p q.reverse x.reverse (fun c hc => hq c (List.mem_reverse.mp hc))]

theorem TrimRight_eq_self_iff (x : Bytes) (p : GoString) :
    TrimRight x p = x ↔ ∀ c, x.getLast? = some c → c ∉ p := by
  unfold TrimRight
  cases hrev : x.reverse with
  | nil =>
    have hx : x = [] := List.reverse_eq_nil_iff.mp hrev
    subst hx
    simp
  | cons c r =>
    have hx : x = r.reverse ++ [c] := by
      have h := congrArg List.reverse hrev
      simpa using h
    have hlast : x.getLast? = some c := by
      rw [hx]; simp
    rw [List.dropWhile_cons]
    by_cases hc : p.contains c = true
    · rw [if_pos hc]
      constructor
      · intro heq
        have hlen := congrArg List.length heq
        have hle := (List.dropWhile_sublist (fun c => p.contains c) (l := r)).length_le
        rw [hx] at hlen
        simp only [List.length_reverse, List.length_append, List.length_cons,
          List.length_nil] at hlen
        omega
      · intro hall
        have hmem : c ∈ p := by simpa using hc
        exact absurd hmem (hall c hlast)
    · rw [if_neg hc]
      constructor
      · intro _ c' hc'
        rw [hlast] at hc'
        cases hc'
        simpa using hc
      · intro _
        rw [hx]; simp

theorem isSuffixOf_split (p t : List UInt8) (h : p.isSuffixOf t = true) :
    t = t.take (t.length - p.length) ++ p := by
  rw [List.isSuffixOf_iff_suffix] at h
  obtain ⟨s, hs⟩ := h
  subst hs
  have hlen : (s ++ p).length - p.length = s.length := by
    simp only [List.length_append]
    omega
  rw [hlen, List.take_left]

theorem TrimRight_afterDangling (data : Bytes) (p : GoString) :
    TrimRight (ReplaceAll data 10 ((10 : UInt8) :: p)) p
      = TrimRight (afterDangling data p) p := by
  unfold afterDangling
  simp only
  by_cases hs : p.isSuffixOf (ReplaceAll data 10 ((10 : UInt8) :: p)) = true
  · rw [if_pos hs]
    conv_lhs => rw [isSuffixOf_split p _ hs]
    exact TrimRight_append_cutset _ p p (fun c hc => hc)
  · rw [if_neg hs]

/-- The code prints what the specification says exactly when what is left
after the dangling prefix does not end with a byte of the prefix. -/
theorem printCurlLikeDump_eq_iff (data : Bytes) (p : GoString) :
    printCurlLikeDump data p = dumpAsSpecified data p
      ↔ ∀ c, (afterDangling data p).getLast? = some c → c ∉ p := by
  unfold printCurlLikeDump dumpAsSpecified
  simp only
  rw [List.append_cancel_left_eq, TrimRight_afterDangling, TrimRight_eq_self_iff]

theorem afterDangling_newline (d : Bytes) (p : GoString) :
    afterDangling (d ++ [10]) p = ReplaceAll d 10 ((10 : UInt8) :: p) ++ [10] := by
  have ht : ReplaceAll (d ++ [10]) 10 ((10 : UInt8) :: p)
      = (ReplaceAll d 10 ((10 : UInt8) :: p) ++ [10]) ++ p := by
    rw [ReplaceAll_append]; simp [ReplaceAll]
  unfold afterDangling
  simp only [ht]
  have hsuf : p.isSuffixOf ((ReplaceAll d 10 ((10 : UInt8) :: p) ++ [10]) ++ p) = true := by
    rw [List.isSuffixOf_iff_suffix]
    exact ⟨_, rfl⟩
  rw [if_pos hsuf]
  have hlen : ((ReplaceAll d 10 ((10 : UInt8) :: p) ++ [10]) ++ p).length - p.length
      = (ReplaceAll d 10 ((10 : UInt8) :: p) ++ [10]).length := by
    simp only [List.length_append, List.length_cons, List.length_nil]
    omega
  rw [hlen, List.take_left]

/-- On data that ends with a newline, as the dumps of the standard library
do, the code prints the prefix, the transformed data up to that newline and
nothing else, which is what the specification says. -/
theorem printCurlLikeDump_newline_terminated (d : Bytes) (p : GoString)
    (hp : (10 : UInt8) ∉ p) :
    printCurlLikeDump (d ++ [10]) p = p ++ (ReplaceAll d 10 ((10 : UInt8) :: p) ++ [10]) ∧
    printCurlLikeDump (d ++ [10]) p = dumpAsSpecified (d ++ [10]) p := by
  have heq : printCurlLikeDump (d ++ [10]) p = dumpAsSpecified (d ++ [10]) p := by
    rw [printCurlLikeDump_eq_iff, afterDangling_newline]
    intro c hc
    have hlast : (ReplaceAll d 10 ((10 : UInt8) :: p) ++ [10]).getLast? = some 10 := by
      simp
    rw [hlast] at hc
    cases hc
    exact hp
  refine ⟨?_, heq⟩
  rw [heq]
  unfold dumpAsSpecified
  rw [afterDangling_newline]

/-! ## Lemmas on option resolution -/

theorem SameCells.refl (a : World V) : SameCells a a := ⟨rfl, rfl, rfl, rfl⟩

theorem SameCells.trans {a b c : World V} (h1 : SameCells a b) (h2 : SameCells b c) :
    SameCells a c :=
  ⟨h1.1.trans h2.1, h1.2.1.trans h2.2.1, h1.2.2.1.trans h2.2.2.1, h1.2.2.2.trans h2.2.2.2⟩

theorem OptCall.func_cells (c : OptCall V) (o : reqOptions V) (w : World V) :
    (c.func o w).1 = none ∧ SameCells (c.func o w).2.2 w := by
  cases c with
  | withClient x => cases x <;> exact ⟨rfl, SameCells.refl _⟩
  | withTimeout x => exact ⟨rfl, SameCells.refl _⟩
  | withHeader x => cases x <;> exact ⟨rfl, SameCells.refl _⟩
  | withTraceHeaders x =>
    cases x with
    | none => exact ⟨rfl, SameCells.refl _⟩
    | some hs =>
      cases ho : o.header <;>
        simp [OptCall.func, WithTraceHeaders, ho, SameCells]
  | withMarshal x => cases x <;> exact ⟨rfl, SameCells.refl _⟩
  | withUnmarshal x => cases x <;> exact ⟨rfl, SameCells.refl _⟩
  | withLogTimeCost x => cases x <;> exact ⟨rfl, SameCells.refl _⟩
  | withDumpRequest x y => exact ⟨rfl, SameCells.refl _⟩
  | withStatusCodeJudge x => cases x <;> exact ⟨rfl, SameCells.refl _⟩
  | storeStatusCode x => exact ⟨rfl, SameCells.refl _⟩

theorem applyOpts_calls (calls : List (OptCall V)) (o : reqOptions V) (w : World V) :
    (applyOpts (calls.map OptCall.func) o w).1 = none ∧
      SameCells (applyOpts (calls.map OptCall.func) o w).2.2 w := by
  induction calls generalizing o w with
  | nil => exact ⟨rfl, SameCells.refl _⟩
  | cons c calls ih =>
    obtain ⟨h1, h2⟩ := OptCall.func_cells c o w
    rcases hr : c.func o w with ⟨e, o1, w1⟩
    rw [hr] at h1 h2
    simp only at h1 h2
    subst h1
    simp only [List.map_cons, applyOpts, hr]
    exact ⟨(ih o1 w1).1, (ih o1 w1).2.trans h2⟩

theorem CurlLikeDumpRequest_cells (env : Env V) (rq : Request) (w : World V) :
    SameCells (CurlLikeDumpRequest env rq w) w := by
  unfold CurlLikeDumpRequest
  cases env.DumpRequestOut rq <;> exact SameCells.refl _

theorem CurlLikeDumpRequest_maps (env : Env V) (rq : Request) (w : World V) :
    (CurlLikeDumpRequest env rq w).maps = w.maps := by
  unfold CurlLikeDumpRequest
  cases env.DumpRequestOut rq <;> rfl

theorem CurlLikeDumpResponse_maps (env : Env V) (rs : Response) (w : World V) :
    (CurlLikeDumpResponse env rs w).maps = w.maps := by
  unfold CurlLikeDumpResponse
  cases env.DumpResponse rs <;> rfl

theorem CurlLikeDumpResponse_cells (env : Env V) (rs : Response) (w : World V) :
    SameCells (CurlLikeDumpResponse env rs w) w := by
  unfold CurlLikeDumpResponse
  cases env.DumpResponse rs <;> exact SameCells.refl _

/-- What a successful `prepare` tells: the record is the resolved one, the
body of the request is the encoded payload, and no cell has changed. -/
theorem prepare_ok (env : Env V) (ctx : Nat) (method addr : GoString)
    (req : Option (ReqPayload V)) (calls : List (OptCall V)) (w : World V)
    (opt : reqOptions V) (rq : Request) (w1 : World V)
    (h : prepare env ctx method addr req (calls.map OptCall.func) w = .ok (opt, rq, w1)) :
    (applyOpts (calls.map OptCall.func) (defaultReqOption env) w).2.1 = opt ∧
      encodePayload opt req = .ok rq.Body ∧ SameCells w1 w ∧
      w1.maps = (applyOpts (calls.map OptCall.func) (defaultReqOption env) w).2.2.maps := by
  obtain ⟨hnone, hcells⟩ := applyOpts_calls calls (defaultReqOption env) w
  unfold prepare at h
  cases hu : env.urlParse addr with
  | error e => simp [hu] at h
  | ok u0 =>
    rcases hr : applyOpts (calls.map OptCall.func) (defaultReqOption env) w with ⟨e, o1, w0⟩
    rw [hr] at hnone hcells
    simp only at hnone hcells
    subst hnone
    simp only [hu, hr] at h
    cases he : encodePayload o1 req with
    | error e => simp [he] at h
    | ok body =>
      simp only [he] at h
      cases hn : env.newRequest method
          (env.urlString (if u0.Scheme = [] then { u0 with Scheme := lit "http" } else u0)) with
      | some e => simp [hn] at h
      | none =>
        simp only [hn, Except.ok.injEq, Prod.mk.injEq] at h
        obtain ⟨h1, h2, h3⟩ := h
        subst h1
        refine ⟨rfl, ?_, ?_, ?_⟩
        · rw [← h2, he]
        · rw [← h3]
          by_cases hd : o1.dumpRequest = true
          · rw [if_pos hd]
            exact (CurlLikeDumpRequest_cells env _ w0).trans hcells
          · rw [if_neg hd]
            exact hcells
        · rw [← h3]
          by_cases hd : o1.dumpRequest = true
          · rw [if_pos hd]
            exact CurlLikeDumpRequest_maps env _ w0
          · rw [if_neg hd]

theorem deferredLog_cells (opt : reqOptions V) (method addr : GoString) (r : Result × World V) :
    SameCells (deferredLog opt method addr r).2 r.2 := by
  unfold deferredLog
  by_cases hl : opt.logTimeCost = true
  · rw [if_pos hl]
    cases opt.statusCode <;> exact SameCells.refl _
  · rw [if_neg hl]
    exact SameCells.refl _

theorem deferredLog_maps (opt : reqOptions V) (method addr : GoString) (r : Result × World V) :
    (deferredLog opt method addr r).2.maps = r.2.maps := by
  unfold deferredLog
  by_cases hl : opt.logTimeCost = true
  · rw [if_pos hl]
    cases opt.statusCode <;> rfl
  · rw [if_neg hl]

theorem deferredLog_load (opt : reqOptions V) (method addr : GoString) (r : Result × World V)
    (p : Pointer) : (deferredLog opt method addr r).2.load p = r.2.load p := by
  obtain ⟨hi, _, _, hv⟩ := deferredLog_cells opt method addr r
  have hm := deferredLog_maps opt method addr r
  cases p <;> simp [World.load, hi, hv, hm]

theorem deferredLog_result (opt : reqOptions V) (method addr : GoString) (r : Result × World V)
    (cell : Nat) (hcell : opt.statusCode = some cell) :
    (deferredLog opt method addr r).1 = r.1 := by
  unfold deferredLog
  by_cases hl : opt.logTimeCost = true
  · rw [if_pos hl, hcell]
  · rw [if_neg hl]

/-- One option that is not `WithHeader(a)` keeps the record off the map `a`
and leaves that map as it is. -/
theorem OptCall.func_map_frame (c : OptCall V) (o : reqOptions V) (w : World V) (a : Nat)
    (hne : o.header ≠ some a) (hlt : a < w.nextMap) (hc : c ≠ .withHeader (some a)) :
    (c.func o w).2.1.header ≠ some a ∧ a < (c.func o w).2.2.nextMap ∧
      (c.func o w).2.2.maps a = w.maps a := by
  cases c with
  | withClient x => cases x <;> exact ⟨hne, hlt, rfl⟩
  | withTimeout x => exact ⟨hne, hlt, rfl⟩
  | withHeader x =>
    cases x with
    | none => exact ⟨hne, hlt, rfl⟩
    | some m =>
      refine ⟨?_, hlt, rfl⟩
      intro hm
      apply hc
      simp only [OptCall.func, WithHeader, Option.some.injEq] at hm
      rw [hm]
  | withTraceHeaders x =>
    cases x with
    | none => exact ⟨hne, hlt, rfl⟩
    | some hs =>
      cases ho : o.header with
      | none =>
        have hm : ¬ a = w.nextMap := by omega
        have hm' : ¬ w.nextMap = a := fun e => hm e.symm
        simp only [OptCall.func, WithTraceHeaders, ho, setAt, hm, if_false]
        exact ⟨by simpa using hm', by omega, trivial⟩
      | some r =>
        have hm : ¬ a = r := by
          intro e
          apply hne
          rw [ho, e]
        simp only [OptCall.func, WithTraceHeaders, ho, setAt, hm, if_false]
        exact ⟨by rw [ho] at hne; exact hne, hlt, trivial⟩
  | withMarshal x => cases x <;> exact ⟨hne, hlt, rfl⟩
  | withUnmarshal x => cases x <;> exact ⟨hne, hlt, rfl⟩
  | withLogTimeCost x => cases x <;> exact ⟨hne, hlt, rfl⟩
  | withDumpRequest x y => exact ⟨hne, hlt, rfl⟩
  | withStatusCodeJudge x => cases x <;> exact ⟨hne, hlt, rfl⟩
  | storeStatusCode x => exact ⟨hne, hlt, rfl⟩

/-- An option other than `WithTraceHeaders` with a non-nil header set writes
no map. -/
theorem OptCall.func_maps_of_no_trace (c : OptCall V) (o : reqOptions V) (w : World V)
    (hc : ∀ hs : Header, c ≠ .withTraceHeaders (some hs)) :
    (c.func o w).2.2.maps = w.maps := by
  cases c with
  | withClient x => cases x <;> rfl
  | withTimeout x => rfl
  | withHeader x => cases x <;> rfl
  | withTraceHeaders x =>
    cases x with
    | none => rfl
    | some hs => exact absurd rfl (hc hs)
  | withMarshal x => cases x <;> rfl
  | withUnmarshal x => cases x <;> rfl
  | withLogTimeCost x => cases x <;> rfl
  | withDumpRequest x y => rfl
  | withStatusCodeJudge x => cases x <;> rfl
  | storeStatusCode x => rfl

/-- Options none of which is `WithTraceHeaders` with a non-nil header set
write no map. -/
theorem applyOpts_maps_of_no_trace (calls : List (OptCall V)) (o : reqOptions V)
    (w : World V) (hcalls : ∀ c ∈ calls, ∀ hs : Header, c ≠ .withTraceHeaders (some hs)) :
    (applyOpts (calls.map OptCall.func) o w).2.2.maps = w.maps := by
  induction calls generalizing o w with
  | nil => rfl
  | cons c calls ih =>
    have h3 := OptCall.func_maps_of_no_trace c o w (hcalls c (by simp))
    have hnone := (OptCall.func_cells c o w).1
    rcases hr : c.func o w with ⟨e, o1, w1⟩
    rw [hr] at h3 hnone
    simp only at h3 hnone
    subst hnone
    simp only [List.map_cons, applyOpts, hr]
    rw [ih o1 w1 (fun c' hc' => hcalls c' (List.mem_cons_of_mem _ hc')), h3]

/-- Options none of which is `WithHeader(a)`, applied to a record whose
header field is not the allocated map `a`, leave that map as it is. -/
theorem applyOpts_map_frame (calls : List (OptCall V)) (o : reqOptions V) (w : World V)
    (a : Nat) (hne : o.header ≠ some a) (hlt : a < w.nextMap)
    (hcalls : ∀ c ∈ calls, c ≠ .withHeader (some a)) :
    (applyOpts (calls.map OptCall.func) o w).2.2.maps a = w.maps a := by
  induction calls generalizing o w with
  | nil => rfl
  | cons c calls ih =>
    obtain ⟨h1, h2, h3⟩ := OptCall.func_map_frame c o w a hne hlt (hcalls c (by simp))
    have hnone := (OptCall.func_cells c o w).1
    rcases hr : c.func o w with ⟨e, o1, w1⟩
    rw [hr] at h1 h2 h3 hnone
    simp only at h1 h2 h3 hnone
    subst hnone
    simp only [List.map_cons, applyOpts, hr]
    rw [ih o1 w1 h1 h2 (fun c' hc' => hcalls c' (List.mem_cons_of_mem _ hc')), h3]

theorem HttpRequest_of_prepare (env : Env V) (ctx : Nat) (method addr : GoString)
    (req : Option (ReqPayload V)) (resp : Option RespSlot) (opts : List (ReqOptionFunc V))
    (w : World V) (opt : reqOptions V) (rq : Request) (w1 : World V)
    (h : prepare env ctx method addr req opts w = .ok (opt, rq, w1)) :
    HttpRequest env ctx method addr req resp opts w
      = deferredLog opt method addr
          (match env.Do opt.httpClient rq with
           | .error err => (.ret (some err), w1)
           | .ok response => receive env opt resp response w1) := by
  unfold HttpRequest
  rw [h]

theorem afterStore_slots (env : Env V) (opt : reqOptions V) (response : Response) (cell : Nat)
    (w : World V) :
    (afterStore env opt response cell w).byteSlots = w.byteSlots ∧
    (afterStore env opt response cell w).stringSlots = w.stringSlots ∧
    (afterStore env opt response cell w).valSlots = w.valSlots ∧
    (afterStore env opt response cell w).maps = w.maps ∧
    (afterStore env opt response cell w).ints = setAt w.ints cell response.StatusCode := by
  unfold afterStore
  by_cases hd : opt.dumpResponse = true
  · obtain ⟨h1, h2, h3, h4⟩ := CurlLikeDumpResponse_cells env response w
    have h5 := CurlLikeDumpResponse_maps env response w
    simp [hd, h1, h2, h3, h4, h5]
  · simp [hd]

theorem receive_rejected (env : Env V) (opt : reqOptions V) (resp : Option RespSlot)
    (response : Response) (w : World V) (b : Bytes) (cell : Nat)
    (hbody : response.Body = .ok b) (hcell : opt.statusCode = some cell)
    (hrej : opt.codeJudger response.StatusCode = false) :
    receive env opt resp response w
      = (.ret (some (NewRequestError response.StatusCode b)),
          afterStore env opt response cell w) := by
  unfold receive afterStore
  simp [hbody, hcell, setAt, hrej]

theorem receive_accepted (env : Env V) (opt : reqOptions V) (resp : Option RespSlot)
    (response : Response) (w : World V) (b : Bytes) (cell : Nat)
    (hbody : response.Body = .ok b) (hcell : opt.statusCode = some cell)
    (hacc : opt.codeJudger response.StatusCode = true) :
    receive env opt resp response w
      = match resp with
        | none => (.ret none, afterStore env opt response cell w)
        | some (.bytes slot) =>
          (.ret none, { afterStore env opt response cell w with
            byteSlots := setAt (afterStore env opt response cell w).byteSlots slot b })
        | some (.str slot) =>
          (.ret none, { afterStore env opt response cell w with
            stringSlots := setAt (afterStore env opt response cell w).stringSlots slot b })
        | some (.ptr p) =>
          let out := opt.unmarshaler b ((afterStore env opt response cell w).load p)
          let w3 : World V := (afterStore env opt response cell w).save p out.1
          match out.2 with
          | some err =>
            (.ret (some (.other (lit "unmarshal " ++ b ++ lit " failed: " ++ err.fmtS)
              none [])), w3)
          | none => (.ret none, w3) := by
  unfold receive afterStore
  simp only [hbody, hcell, setAt, hacc, if_true, Bool.not_true]
  rfl

theorem World.save_ints (w : World V) (p : Pointer) (t : Target V) (cell : Nat)
    (hp : p ≠ .int cell) : (w.save p t).ints cell = w.ints cell := by
  cases p with
  | int c =>
    have hc : ¬ cell = c := by
      intro e
      apply hp
      rw [e]
    cases t <;> simp [World.save, setAt, hc]
  | map r => cases t <;> rfl
  | other s => cases t <;> rfl

theorem World.load_save (w : World V) (p : Pointer) (t : Target V)
    (hfit : p.fits t = true) : (w.save p t).load p = t := by
  cases p <;> cases t <;> simp [Pointer.fits] at hfit <;> simp [World.save, World.load, setAt]

/-- After a response whose body is read, the status cell holds the status
code unless the code is accepted and the response slot is that very cell. -/
theorem receive_ints (env : Env V) (opt : reqOptions V) (resp : Option RespSlot)
    (response : Response) (w : World V) (b : Bytes) (cell : Nat)
    (hbody : response.Body = .ok b) (hcell : opt.statusCode = some cell)
    (hfree : opt.codeJudger response.StatusCode = false ∨ resp ≠ some (.ptr (.int cell))) :
    (receive env opt resp response w).2.ints cell = response.StatusCode := by
  have hst : (afterStore env opt response cell w).ints cell = response.StatusCode := by
    rw [(afterStore_slots env opt response cell w).2.2.2.2]
    simp [setAt]
  cases hj : opt.codeJudger response.StatusCode with
  | false => rw [receive_rejected env opt resp response w b cell hbody hcell hj]; exact hst
  | true =>
    rw [receive_accepted env opt resp response w b cell hbody hcell hj]
    cases resp with
    | none => exact hst
    | some slot =>
      cases slot with
      | bytes n => exact hst
      | str n => exact hst
      | ptr p =>
        have hp : p ≠ .int cell := by
          intro e
          rcases hfree with h | h
          · rw [hj] at h; cases h
          · apply h; rw [e]
        simp only
        cases (opt.unmarshaler b ((afterStore env opt response cell w).load p)).2 <;>
          simp only <;> rw [World.save_ints _ p _ cell hp] <;> exact hst

theorem afterStore_load (env : Env V) (opt : reqOptions V) (response : Response) (cell : Nat)
    (w : World V) (p : Pointer) :
    (afterStore env opt response cell w).load p
      = targetAtDecode w cell response.StatusCode p := by
  obtain ⟨_, _, hv, hm, hi⟩ := afterStore_slots env opt response cell w
  cases p <;> simp [World.load, targetAtDecode, hv, hm, hi, setAt]

/-! ## Checks of the embedding against the tests of the repository -/

theorem test_canonical_key :
    CanonicalMIMEHeaderKey (lit "x-b3-traceid") = lit "X-B3-Traceid" := by decide

theorem test_ForwardHeaders_b3 :
    ForwardHeaders b3Header = [(lit "x-b3-traceid", lit "abc")] := by decide

theorem test_dump_of_request :
    printCurlLikeDump (lit "GET / HTTP/1.1\r\nHost: x\r\n\r\n") (lit "> ")
      = lit "> GET / HTTP/1.1\r\n> Host: x\r\n> \r\n" := by decide

theorem test_RequestError_text :
    (NewRequestError 500 (lit "boom")).Error
      = some (lit "Status Code 500, Message: boom") := by
  decide

theorem test_HttpRequest_get :
    (HttpRequest (testEnv testHandler) 0 (lit "GET") (lit "127.0.0.1") none (some (.bytes 0))
      (testOptions 30000000000) testWorld).1.isNil = true ∧
    (HttpRequest (testEnv testHandler) 0 (lit "GET") (lit "127.0.0.1") none (some (.bytes 0))
      (testOptions 30000000000) testWorld).2.ints 3 = 200 ∧
    (HttpRequest (testEnv testHandler) 0 (lit "GET") (lit "127.0.0.1") none (some (.bytes 0))
      (testOptions 30000000000) testWorld).2.byteSlots 0 = lit "\x7b\"foo\": \"bar\"\x7d" := by
  decide

theorem test_HttpRequest_post_map :
    (HttpRequest (testEnv testHandler) 0 (lit "POST") (lit "127.0.0.1")
      (some (.other (.map [(lit "foo", lit "bar")]))) (some (.ptr (.map 2)))
      (testOptions 30000000000) testWorld).1.isNil = true ∧
    GoMap.get ((HttpRequest (testEnv testHandler) 0 (lit "POST") (lit "127.0.0.1")
      (some (.other (.map [(lit "foo", lit "bar")]))) (some (.ptr (.map 2)))
      (testOptions 30000000000) testWorld).2.maps 2) (lit "body") = some (lit "foo=bar;") := by
  decide

theorem test_HttpRequest_put :
    GetErrorCode (HttpRequest (testEnv testHandler) 0 (lit "PUT") (lit "127.0.0.1")
      (some (.bytes (lit "\x7b\"foo\": \"bar\"\x7d"))) none
      (testOptions 30000000000) testWorld).1.error = some (500, true) ∧
    IsErrorCode (HttpRequest (testEnv testHandler) 0 (lit "PUT") (lit "127.0.0.1")
      (some (.bytes (lit "\x7b\"foo\": \"bar\"\x7d"))) none
      (testOptions 30000000000) testWorld).1.error 500 = some true ∧
    (HttpRequest (testEnv testHandler) 0 (lit "PUT") (lit "127.0.0.1")
      (some (.bytes (lit "\x7b\"foo\": \"bar\"\x7d"))) none
      (testOptions 30000000000) testWorld).2.logs
      = [{ printfer := 1, statusCode := 500, method := lit "PUT", url := lit "127.0.0.1" }] := by
  have h : (HttpRequest (testEnv testHandler) 0 (lit "PUT") (lit "127.0.0.1")
      (some (.bytes (lit "\x7b\"foo\": \"bar\"\x7d"))) none
      (testOptions 30000000000) testWorld).1 = .ret (some (NewRequestError 500 [])) := rfl
  rw [h]
  exact ⟨by decide, by decide, by decide⟩

theorem test_HttpRequest_patch_timeout :
    GetErrorCode (HttpRequest (testEnv testHandler) 0 (lit "PATCH") (lit "127.0.0.1")
      none none (testOptions 100000000) testWorld).1.error = some (0, false) ∧
    (HttpRequest (testEnv testHandler) 0 (lit "PATCH") (lit "127.0.0.1")
      none none (testOptions 100000000) testWorld).1.isNil = false ∧
    (HttpRequest (testEnv testHandler) 0 (lit "PATCH") (lit "127.0.0.1")
      none none (testOptions 100000000) testWorld).2.ints 3 = 0 := by
  decide

/-- After one call with `WithTraceHeaders` on the default header map, a later
call without any option sends the forwarded header: the default map kept it. -/
theorem later_call_sends_forwarded_header :
    (HttpRequest (testEnv traceEchoTransport) 0 (lit "GET") (lit "example.com") none
      (some (.str 0)) [] (World.init [])).2.stringSlots 0 = [] ∧
    (HttpRequest (testEnv traceEchoTransport) 0 (lit "GET") (lit "example.com") none
      (some (.str 0)) []
      (HttpRequest (testEnv traceEchoTransport) 0 (lit "GET") (lit "example.com") none none
        [WithTraceHeaders (some b3Header)] (World.init [])).2).2.stringSlots 0 = lit "abc" := by
  decide

/-! ## The claims -/

/-- C2: the default status judge accepts exactly the codes 200 to 299: for
every integer n, `defaultCodeJudger n` is true if and only if 200 ≤ n ≤ 299;
so 199, 300 and every code that is zero or negative are rejected and 200 and 299 accepted, and
it is the judge of the default configuration. -/
theorem defaultCodeJudger_accepts_exactly_2xx (n : Int) :
    (defaultCodeJudger n = true ↔ 200 ≤ n ∧ n ≤ 299) ∧
    defaultCodeJudger 199 = false ∧ defaultCodeJudger 300 = false ∧
    defaultCodeJudger 200 = true ∧ defaultCodeJudger 299 = true ∧
    defaultCodeJudger (-(n.natAbs : Int)) = false ∧
    ∀ env : Env V, (defaultReqOption env).codeJudger = defaultCodeJudger := by
  refine ⟨?_, by decide, by decide, by decide, by decide, ?_, fun _ => rfl⟩
  · unfold defaultCodeJudger
    by_cases h : n < 200 ∨ n ≥ 300
    · simp only [Bool.or_eq_true, decide_eq_true_eq, h, if_true]
      constructor
      · intro hf; cases hf
      · rintro ⟨h1, h2⟩; omega
    · simp only [Bool.or_eq_true, decide_eq_true_eq, h, if_false]
      constructor
      · intro _; omega
      · intro _; trivial
  · unfold defaultCodeJudger
    have h : -(n.natAbs : Int) < 200 := by omega
    have hb : (decide (-(n.natAbs : Int) < 200) || decide (-(n.natAbs : Int) ≥ 300)) = true := by
      simp only [Bool.or_eq_true, decide_eq_true_eq]
      exact Or.inl h
    rw [if_pos hb]

/-- C5: `ForwardHeaders` is filter-exact: a key `k` is in the result exactly
when `k` is one of the allowlisted names, spelled as listed, and the header
set holds a non-empty value for it, that is `Get` of the name, the first
value stored under its canonical form, is not empty; the result then maps
`k` to that value unchanged, no other name appears, and the empty header set
gives the empty mapping. -/
theorem ForwardHeaders_filter_exact (h : Header) (k : GoString) :
    (GoMap.get (ForwardHeaders h) k ≠ none ↔ k ∈ incommingHeaders ∧ Header.Get h k ≠ []) ∧
    (GoMap.get (ForwardHeaders h) k
      = if k ∈ incommingHeaders ∧ Header.Get h k ≠ [] then some (Header.Get h k) else none) ∧
    Header.Get h k = (Header.lookup h (CanonicalMIMEHeaderKey k)).headD [] ∧
    ForwardHeaders [] = [] := by
  have hget := forwardStep_foldl_get h incommingHeaders [] k
  simp only [GoMap.get] at hget
  refine ⟨?_, hget, ?_, by decide⟩
  · unfold ForwardHeaders
    rw [hget]
    by_cases hc : k ∈ incommingHeaders ∧ Header.Get h k ≠ [] <;> simp [hc]
  · unfold Header.Get
    cases Header.lookup h (CanonicalMIMEHeaderKey k) <;> rfl

/-- C4 as stated fails on an error whose type has an `As` method: the chain
of `wrappedWithAs` is the error itself, which is no `*RequestError`, and then
`NewRequestError 404 nf`, yet the accessors give the code 1 and the message
`from As` that the method left in the target; the chain of `plainWithAs`
holds no `*RequestError` at all, yet the code accessor gives `(1, true)`. -/
theorem accessors_follow_As_method :
    wrappedWithAs.chain = [wrappedWithAs] ++ NewRequestError 404 (lit "nf") :: [] ∧
    wrappedWithAs.isRequestError = false ∧
    GetErrorCode (some wrappedWithAs) = some (1, true) ∧
    GetErrorMessage (some wrappedWithAs) = some (lit "from As") ∧
    IsErrorCode (some wrappedWithAs) 404 = some false ∧
    plainWithAs.chain = [plainWithAs] ∧
    plainWithAs.isRequestError = false ∧
    GetErrorCode (some plainWithAs) = some (1, true) ∧
    GetErrorMessage (some plainWithAs) = some (lit "from As") ∧
    IsErrorCode (some plainWithAs) 1 = some true :=
  ⟨rfl, rfl, by decide, by decide, by decide, rfl, rfl, by decide, by decide, by decide⟩

/-- C4, amended: the error accessors see through wrapping as far as no `As`
method answers first.  For every non-nil error whose chain reaches
`NewRequestError c m` as its first `*RequestError`, with no error before it
in the chain whose `As` method answers a `*RequestError` target,
`GetErrorCode` is `(c, true)`, `GetErrorMessage` is `m` and `IsErrorCode` at
`k` is true exactly when `k = c`; for every non-nil error whose chain holds
no `*RequestError` and no error with such an `As` method, `GetErrorCode` is
`(0, false)`, `GetErrorMessage` is the text of the error and `IsErrorCode` is
false at every code. -/
theorem accessors_see_through_wrapping (err : GoError) :
    (∀ (c : Int) (m : GoString) (pre post : List GoError),
      err.chain = pre ++ NewRequestError c m :: post →
      (∀ x ∈ pre, x.isRequestError = false ∧ x.answersAs = false) →
      GetErrorCode (some err) = some (c, true) ∧ GetErrorMessage (some err) = some m ∧
      ∀ k : Int, IsErrorCode (some err) k = some (decide (c = k))) ∧
    ((∀ x ∈ err.chain, x.isRequestError = false ∧ x.answersAs = false) →
      GetErrorCode (some err) = some (0, false) ∧
      GetErrorMessage (some err) = err.Error ∧
      (∃ text, err.Error = some text) ∧
      ∀ k : Int, IsErrorCode (some err) k = some false) := by
  constructor
  · intro c m pre post hsplit hpre
    have has : errorsAs err = some (some { Code := c, Message := m }) := by
      rw [errorsAs_eq_firstAnswer, hsplit]
      exact firstAnswer_of_split pre post _ hpre
    refine ⟨by simp [GetErrorCode, has], by simp [GetErrorMessage, has], ?_⟩
    intro k
    simp only [IsErrorCode, Option.bind, has]
    by_cases hck : c = k <;> simp [hck]
  · intro hno
    have has : errorsAs err = none := by
      rw [errorsAs_eq_firstAnswer]
      exact firstAnswer_of_none _ hno
    have htext : ∃ text, err.Error = some text := by
      cases err with
      | request p =>
        have h := (hno (.request p) (by simp [GoError.chain])).1
        simp [GoError.isRequestError] at h
      | other msg t us => exact ⟨msg, rfl⟩
    exact ⟨by simp [GetErrorCode, has], by simp [GetErrorMessage, has], htext,
      fun k => by simp [IsErrorCode, has]⟩

/-- Witness of amended C4 at `wrappedNotFound`, whose first `*RequestError`
lies two levels down, and at `wrappedPlain`, which has none. -/
theorem accessors_see_through_wrapping_witness :
    (GetErrorCode (some wrappedNotFound) = some (404, true) ∧
      GetErrorMessage (some wrappedNotFound) = some (lit "not found") ∧
      IsErrorCode (some wrappedNotFound) 404 = some true ∧
      IsErrorCode (some wrappedNotFound) 500 = some false) ∧
    (GetErrorCode (some wrappedPlain) = some (0, false) ∧
      GetErrorMessage (some wrappedPlain) = some (lit "outer") ∧
      IsErrorCode (some wrappedPlain) 404 = some false) := by
  have hfound := (accessors_see_through_wrapping wrappedNotFound).1 404 (lit "not found")
    [wrappedNotFound, .other (lit "sibling") none [],
      .other (lit "middle") none
        [NewRequestError 404 (lit "not found"), NewRequestError 500 (lit "x")]]
    [NewRequestError 500 (lit "x")] rfl
    (by
      intro x hx
      simp only [List.mem_cons, List.mem_singleton, List.not_mem_nil, or_false] at hx
      rcases hx with h | h | h <;> subst h <;> exact ⟨rfl, rfl⟩)
  have hplain := (accessors_see_through_wrapping wrappedPlain).2
    (by
      intro x hx
      have hchain : wrappedPlain.chain = [wrappedPlain, .other (lit "inner") none []] := rfl
      rw [hchain] at hx
      simp only [List.mem_cons, List.mem_singleton, List.not_mem_nil, or_false] at hx
      rcases hx with h | h <;> subst h <;> exact ⟨rfl, rfl⟩)
  refine ⟨⟨hfound.1, hfound.2.1, ?_, ?_⟩, ⟨hplain.1, ?_, hplain.2.2.2 404⟩⟩
  · rw [hfound.2.2 404]; rfl
  · rw [hfound.2.2 500]; rfl
  · rw [hplain.2.1]; rfl

/-- C10 as stated fails at the data `a>` with the prefix `> `: the
transformed data has no dangling prefix at its end, so the specification
prints `> a>`; the code prints `> a`, because `bytes.TrimRight` removes every
trailing byte that occurs in the prefix and so takes the last byte of the
data. -/
theorem printCurlLikeDump_drops_data_bytes :
    printCurlLikeDump (lit "a>") (lit "> ") = lit "> a" ∧
    dumpAsSpecified (lit "a>") (lit "> ") = lit "> a>" := by
  decide

/-- C10, amended: for every data and either prefix of the dumper,
`printCurlLikeDump` writes the prefix followed by the transformed data less
one dangling prefix exactly when what is left does not end with a byte of
the prefix; this is so for every data that ends with a newline, as each dump
handed to it does, and the output is then the prefix, every byte of the data
up to that newline with the prefix after each newline, and the newline. -/
theorem printCurlLikeDump_strips_dangling_once (data : Bytes) :
    (printCurlLikeDump data (lit "> ") = dumpAsSpecified data (lit "> ")
      ↔ ∀ c, (afterDangling data (lit "> ")).getLast? = some c → c ∉ lit "> ") ∧
    (printCurlLikeDump data (lit "< ") = dumpAsSpecified data (lit "< ")
      ↔ ∀ c, (afterDangling data (lit "< ")).getLast? = some c → c ∉ lit "< ") ∧
    (printCurlLikeDump (data ++ [10]) (lit "> ") = dumpAsSpecified (data ++ [10]) (lit "> ") ∧
      printCurlLikeDump (data ++ [10]) (lit "> ")
        = lit "> " ++ (ReplaceAll data 10 ((10 : UInt8) :: lit "> ") ++ [10])) ∧
    (printCurlLikeDump (data ++ [10]) (lit "< ") = dumpAsSpecified (data ++ [10]) (lit "< ") ∧
      printCurlLikeDump (data ++ [10]) (lit "< ")
        = lit "< " ++ (ReplaceAll data 10 ((10 : UInt8) :: lit "< ") ++ [10])) := by
  have h1 := printCurlLikeDump_newline_terminated data (lit "> ") (by decide)
  have h2 := printCurlLikeDump_newline_terminated data (lit "< ") (by decide)
  exact ⟨printCurlLikeDump_eq_iff data (lit "> "), printCurlLikeDump_eq_iff data (lit "< "),
    ⟨h1.2, h1.1⟩, ⟨h2.2, h2.1⟩⟩

/-- Witness of amended C10 on the head of a response dump: it ends with a
newline and each line comes out behind the prefix. -/
theorem printCurlLikeDump_strips_dangling_once_witness :
    printCurlLikeDump (lit "HTTP/1.1 200 OK\r\n\r\n") (lit "< ")
      = lit "< HTTP/1.1 200 OK\r\n< \r\n" ∧
    dumpAsSpecified (lit "HTTP/1.1 200 OK\r\n\r\n") (lit "< ")
      = lit "< HTTP/1.1 200 OK\r\n< \r\n" := by
  have h := (printCurlLikeDump_strips_dangling_once (lit "HTTP/1.1 200 OK\r\n\r")).2.2.2
  have hd : lit "HTTP/1.1 200 OK\r\n\r" ++ [10] = lit "HTTP/1.1 200 OK\r\n\r\n" := by decide
  rw [hd] at h
  refine ⟨?_, ?_⟩
  · rw [h.2]; decide
  · rw [← h.1, h.2]; decide

/-- The options with a nil guard leave the record and the world as they are
when the argument is nil. -/
theorem nil_argument_is_noop (o : reqOptions V) (w : World V) :
    WithClient none o w = (none, o, w) ∧ WithHeader none o w = (none, o, w) ∧
    WithTraceHeaders none o w = (none, o, w) ∧ WithMarshal none o w = (none, o, w) ∧
    WithUnmarshal none o w = (none, o, w) ∧ WithStatusCodeJudge none o w = (none, o, w) :=
  ⟨rfl, rfl, rfl, rfl, rfl, rfl⟩

/-- C9 at `StoreStatusCode(nil)`: the option has no nil guard, so applied to
the default record it replaces the status cell by the nil pointer, and a
request made with it panics when the status code is stored. -/
theorem StoreStatusCode_nil_clears_the_cell :
    (defaultReqOption (testEnv echoTransport)).statusCode = some defaultStatusRef ∧
    (StoreStatusCode none (defaultReqOption (testEnv echoTransport))
      (World.init [])).2.1.statusCode = none ∧
    (HttpRequest (testEnv echoTransport) 0 (lit "GET") (lit "example.com") none none
      [StoreStatusCode none] (World.init [])).1 = Result.panic :=
  ⟨rfl, rfl, rfl⟩

/-- C1 as stated fails when the response slot is a cell or a map that the
call itself writes.  With `var n int` as the cell 3, the call with the slot
`&n` and `StoreStatusCode(&n)` that is answered 500 returns the error with
code 500 and leaves 500 in the slot, which held 0.  With the caller's map at
address 1 as the slot, `WithHeader(m)` and `WithTraceHeaders(b3Header)`, the
call that is answered 500 leaves `x-b3-traceid: abc` in the slot, which had
no such entry. -/
theorem rejected_status_overwrites_aliased_slot :
    (World.init ([] : Bytes)).ints 3 = 0 ∧
    GetErrorCode (HttpRequest (testEnv (fixedTransport 500 (lit "boom"))) 0 (lit "GET")
      (lit "example.com") none (some (.ptr (.int 3))) [StoreStatusCode (some 3)]
      (World.init [])).1.error = some (500, true) ∧
    (HttpRequest (testEnv (fixedTransport 500 (lit "boom"))) 0 (lit "GET")
      (lit "example.com") none (some (.ptr (.int 3))) [StoreStatusCode (some 3)]
      (World.init [])).2.ints 3 = 500 ∧
    GoMap.get (callerWorld.maps 1) (lit "x-b3-traceid") = none ∧
    GetErrorCode (HttpRequest (testEnv (fixedTransport 500 (lit "boom"))) 0 (lit "GET")
      (lit "example.com") none (some (.ptr (.map 1)))
      [WithHeader (some 1), WithTraceHeaders (some b3Header)] callerWorld).1.error
      = some (500, true) ∧
    GoMap.get ((HttpRequest (testEnv (fixedTransport 500 (lit "boom"))) 0 (lit "GET")
      (lit "example.com") none (some (.ptr (.map 1)))
      [WithHeader (some 1), WithTraceHeaders (some b3Header)] callerWorld).2.maps 1)
      (lit "x-b3-traceid") = some (lit "abc") := by
  have h1 : (HttpRequest (testEnv (fixedTransport 500 (lit "boom"))) 0 (lit "GET")
      (lit "example.com") none (some (.ptr (.int 3))) [StoreStatusCode (some 3)]
      (World.init [])).1 = .ret (some (NewRequestError 500 (lit "boom"))) := rfl
  have h2 : (HttpRequest (testEnv (fixedTransport 500 (lit "boom"))) 0 (lit "GET")
      (lit "example.com") none (some (.ptr (.map 1)))
      [WithHeader (some 1), WithTraceHeaders (some b3Header)] callerWorld).1
      = .ret (some (NewRequestError 500 (lit "boom"))) := rfl
  rw [h1, h2]
  exact ⟨by decide, by decide, by decide, by decide, by decide, by decide⟩

/-- C1, amended: when the status judge of the resolved options rejects the
status code of the response and the body has been read as `b`, `HttpRequest`
returns `NewRequestError code b`, an error whose code accessor gives
`(code, true)` and whose message accessor gives `b`; nothing is decoded: every
`[]byte`, `string` and other cell holds what it held before the call, every
`int` cell other than the status cell does, and so does every map of the
caller unless it is handed to `WithHeader` while a `WithTraceHeaders` with a
non-nil header set is among the options.  So the response slot is left as it
was unless it is the status cell or such a header map.  The options are any
of the package's, with a status cell in place. -/
theorem rejected_status_is_request_error (env : Env V) (ctx : Nat) (method addr : GoString)
    (req : Option (ReqPayload V)) (resp : Option RespSlot) (calls : List (OptCall V))
    (w : World V) (opt : reqOptions V) (request : Request) (w1 : World V)
    (response : Response) (b : Bytes) (cell : Nat)
    (hprep : prepare env ctx method addr req (calls.map OptCall.func) w
      = .ok (opt, request, w1))
    (hdo : env.Do opt.httpClient request = .ok response)
    (hbody : response.Body = .ok b)
    (hcell : opt.statusCode = some cell)
    (hrej : opt.codeJudger response.StatusCode = false) :
    (HttpRequest env ctx method addr req resp (calls.map OptCall.func) w).1
      = .ret (some (NewRequestError response.StatusCode b)) ∧
    GetErrorCode (some (NewRequestError response.StatusCode b))
      = some (response.StatusCode, true) ∧
    GetErrorMessage (some (NewRequestError response.StatusCode b)) = some b ∧
    (HttpRequest env ctx method addr req resp (calls.map OptCall.func) w).2.byteSlots
      = w.byteSlots ∧
    (HttpRequest env ctx method addr req resp (calls.map OptCall.func) w).2.stringSlots
      = w.stringSlots ∧
    (HttpRequest env ctx method addr req resp (calls.map OptCall.func) w).2.valSlots
      = w.valSlots ∧
    (∀ a : Nat, a ≠ cell →
      (HttpRequest env ctx method addr req resp (calls.map OptCall.func) w).2.ints a
        = w.ints a) ∧
    (∀ a : Nat, a < w.nextMap → a ≠ defaultHeaderRef →
      ((∀ c ∈ calls, c ≠ OptCall.withHeader (some a)) ∨
        (∀ c ∈ calls, ∀ hs : Header, c ≠ OptCall.withTraceHeaders (some hs))) →
      (HttpRequest env ctx method addr req resp (calls.map OptCall.func) w).2.maps a
        = w.maps a) := by
  obtain ⟨_, _, ⟨hi, hb, hs, hv⟩, hm⟩ :=
    prepare_ok env ctx method addr req calls w opt request w1 hprep
  rw [HttpRequest_of_prepare env ctx method addr req resp _ w opt request w1 hprep, hdo]
  simp only
  rw [receive_rejected env opt resp response w1 b cell hbody hcell hrej]
  obtain ⟨li, lb, ls, lv⟩ := deferredLog_cells opt method addr
    (.ret (some (NewRequestError response.StatusCode b)), afterStore env opt response cell w1)
  have lm := deferredLog_maps opt method addr
    (.ret (some (NewRequestError response.StatusCode b)), afterStore env opt response cell w1)
  obtain ⟨ab, as, av, am, ai⟩ := afterStore_slots env opt response cell w1
  refine ⟨?_, rfl, rfl, ?_, ?_, ?_, ?_, ?_⟩
  · rw [deferredLog_result opt method addr _ cell hcell]
  · rw [lb, ab, hb]
  · rw [ls, as, hs]
  · rw [lv, av, hv]
  · intro a ha
    rw [li, ai, hi]
    simp [setAt, ha]
  · intro a hlt hdef hcalls
    rw [lm, am, hm]
    rcases hcalls with hcalls | hcalls
    · exact applyOpts_map_frame calls (defaultReqOption env) w a
        (by
          intro h
          apply hdef
          simpa [defaultReqOption] using h.symm) hlt hcalls
    · rw [applyOpts_maps_of_no_trace calls (defaultReqOption env) w hcalls]

/-- Witness of amended C1: a PUT with a `*[]byte` slot, answered 200 with the
body `boom`, under the judge that accepts only 204 (the default judge would
accept 200). -/
theorem rejected_status_is_request_error_witness :
    (HttpRequest (testEnv (fixedTransport 200 (lit "boom"))) 0 (lit "PUT") (lit "example.com")
        (some (.bytes (lit "x"))) (some (.bytes 7))
        ([OptCall.withStatusCodeJudge (some (fun c => c == 204)),
          OptCall.storeStatusCode (some 3)].map OptCall.func) callerWorld).1
      = .ret (some (NewRequestError 200 (lit "boom"))) ∧
    GetErrorCode (some (NewRequestError 200 (lit "boom"))) = some (200, true) ∧
    GetErrorMessage (some (NewRequestError 200 (lit "boom"))) = some (lit "boom") ∧
    (HttpRequest (testEnv (fixedTransport 200 (lit "boom"))) 0 (lit "PUT") (lit "example.com")
        (some (.bytes (lit "x"))) (some (.bytes 7))
        ([OptCall.withStatusCodeJudge (some (fun c => c == 204)),
          OptCall.storeStatusCode (some 3)].map OptCall.func) callerWorld).2.byteSlots
      = callerWorld.byteSlots ∧
    (HttpRequest (testEnv (fixedTransport 200 (lit "boom"))) 0 (lit "PUT") (lit "example.com")
        (some (.bytes (lit "x"))) (some (.bytes 7))
        ([OptCall.withStatusCodeJudge (some (fun c => c == 204)),
          OptCall.storeStatusCode (some 3)].map OptCall.func) callerWorld).2.ints 4
      = callerWorld.ints 4 ∧
    (HttpRequest (testEnv (fixedTransport 200 (lit "boom"))) 0 (lit "PUT") (lit "example.com")
        (some (.bytes (lit "x"))) (some (.bytes 7))
        ([OptCall.withStatusCodeJudge (some (fun c => c == 204)),
          OptCall.storeStatusCode (some 3)].map OptCall.func) callerWorld).2.maps 1
      = callerWorld.maps 1 := by
  have h := rejected_status_is_request_error (testEnv (fixedTransport 200 (lit "boom"))) 0
    (lit "PUT") (lit "example.com") (some (.bytes (lit "x"))) (some (.bytes 7))
    [OptCall.withStatusCodeJudge (some (fun c => c == 204)), OptCall.storeStatusCode (some 3)]
    callerWorld _ _ _ { StatusCode := 200, Body := .ok (lit "boom") } (lit "boom") 3
    rfl rfl rfl rfl rfl
  refine ⟨h.1, h.2.1, h.2.2.1, h.2.2.2.1, h.2.2.2.2.2.2.1 4 (by decide), ?_⟩
  apply h.2.2.2.2.2.2.2 1 (by decide) (by decide)
  refine Or.inl ?_
  intro c hc
  simp only [List.mem_cons, List.mem_singleton, List.not_mem_nil, or_false] at hc
  rcases hc with e | e <;> subst e <;> intro h' <;> cases h'

/-- C6 as stated fails when the status cell is also the response slot: with
`var n int` as the cell 3, the slot `&n` and `StoreStatusCode(&n)`, the call
that is answered 200 with the body `7` returns nil and leaves 7 in the cell,
the value decoded after the status code was stored, not 200. -/
theorem status_cell_overwritten_by_decoded_value :
    (HttpRequest (testEnv (fixedTransport 200 (lit "7"))) 0 (lit "GET") (lit "example.com")
      none (some (.ptr (.int 3))) [StoreStatusCode (some 3)] (World.init [])).1.isNil = true ∧
    (HttpRequest (testEnv (fixedTransport 200 (lit "7"))) 0 (lit "GET") (lit "example.com")
      none (some (.ptr (.int 3))) [StoreStatusCode (some 3)] (World.init [])).2.ints 3 = 7 := by
  decide

/-- C6, amended: the final value of the status cell the resolved options
point to.  If the transport answers and the body is read, the cell holds the
status code of the response after the call whenever the judge rejects the
code, and also when the judge accepts it unless the response slot is that
very cell; if the transport returns an error, the call returns that error and
the cell holds what it held before the call. -/
theorem status_cell_final_value (env : Env V) (ctx : Nat) (method addr : GoString)
    (req : Option (ReqPayload V)) (resp : Option RespSlot) (calls : List (OptCall V))
    (w : World V) (opt : reqOptions V) (request : Request) (w1 : World V) (cell : Nat)
    (hprep : prepare env ctx method addr req (calls.map OptCall.func) w
      = .ok (opt, request, w1))
    (hcell : opt.statusCode = some cell) :
    (∀ (response : Response) (b : Bytes),
      env.Do opt.httpClient request = .ok response → response.Body = .ok b →
      (opt.codeJudger response.StatusCode = false ∨ resp ≠ some (.ptr (.int cell))) →
      (HttpRequest env ctx method addr req resp (calls.map OptCall.func) w).2.ints cell
        = response.StatusCode) ∧
    (∀ err : GoError, env.Do opt.httpClient request = .error err →
      (HttpRequest env ctx method addr req resp (calls.map OptCall.func) w).1
        = .ret (some err) ∧
      (HttpRequest env ctx method addr req resp (calls.map OptCall.func) w).2.ints cell
        = w.ints cell) := by
  obtain ⟨_, _, ⟨hi, _⟩, _⟩ := prepare_ok env ctx method addr req calls w opt request w1 hprep
  rw [HttpRequest_of_prepare env ctx method addr req resp _ w opt request w1 hprep]
  constructor
  · intro response b hdo hbody hfree
    rw [hdo]
    simp only
    rw [(deferredLog_cells opt method addr (receive env opt resp response w1)).1]
    exact receive_ints env opt resp response w1 b cell hbody hcell hfree
  · intro err hdo
    rw [hdo]
    simp only
    refine ⟨deferredLog_result opt method addr _ cell hcell, ?_⟩
    rw [(deferredLog_cells opt method addr (.ret (some err), w1)).1]
    simp only
    rw [hi]

/-- Witness of amended C6 with `StoreStatusCode(&cell)` for cell 3: an answer
500 is rejected and leaves 500 in the cell even when the cell is the response
slot, an answer 200 with a `*string` slot is accepted and leaves 200, and a
transport that fails returns its error and leaves the 0 of a freshly declared
cell. -/
theorem status_cell_final_value_witness :
    (HttpRequest (testEnv (fixedTransport 500 [])) 0 (lit "PUT") (lit "example.com")
        none (some (.ptr (.int 3))) ([OptCall.storeStatusCode (some 3)].map OptCall.func)
        (World.init [])).2.ints 3 = 500 ∧
    (HttpRequest (testEnv echoTransport) 0 (lit "GET") (lit "example.com")
        none (some (.str 1)) ([OptCall.storeStatusCode (some 3)].map OptCall.func)
        (World.init [])).2.ints 3 = 200 ∧
    (HttpRequest (testEnv failingTransport) 0 (lit "PATCH") (lit "example.com")
        none none ([OptCall.withTimeout 100000000,
          OptCall.storeStatusCode (some 3)].map OptCall.func) (World.init [])).1
      = .ret (some (.other (lit "context deadline exceeded") none [])) ∧
    (HttpRequest (testEnv failingTransport) 0 (lit "PATCH") (lit "example.com")
        none none ([OptCall.withTimeout 100000000,
          OptCall.storeStatusCode (some 3)].map OptCall.func) (World.init [])).2.ints 3
      = (World.init ([] : Bytes)).ints 3 :=
  ⟨(status_cell_final_value (testEnv (fixedTransport 500 [])) 0 (lit "PUT")
      (lit "example.com") none (some (.ptr (.int 3))) [OptCall.storeStatusCode (some 3)]
      (World.init []) _ _ _ 3 rfl rfl).1 { StatusCode := 500, Body := .ok [] } [] rfl rfl
      (Or.inl rfl),
    (status_cell_final_value (testEnv echoTransport) 0 (lit "GET")
      (lit "example.com") none (some (.str 1)) [OptCall.storeStatusCode (some 3)]
      (World.init []) _ _ _ 3 rfl rfl).1 { StatusCode := 200, Body := .ok [] } [] rfl rfl
      (Or.inr (by decide)),
    (status_cell_final_value (testEnv failingTransport) 0 (lit "PATCH")
      (lit "example.com") none none
      [OptCall.withTimeout 100000000, OptCall.storeStatusCode (some 3)] (World.init [])
      _ _ _ 3 rfl rfl).2 (.other (lit "context deadline exceeded") none []) rfl⟩

/-- C3 as stated fails in part (iii) when the slot already holds a value and
the unmarshal function adds to its target, as `json.Unmarshal` does on a map.
The pair `fixtureMarshal`, `mergingUnmarshal` gives `v` back on an empty
target, so unmarshal(marshal(v)) = v; with the slot holding `x`, the echoed
call returns nil and leaves `xv` in the slot, not `v`. -/
theorem echo_round_trip_merges_into_filled_slot :
    fixtureMarshal (.val (lit "v")) = .ok (lit "v") ∧
    mergingUnmarshal (lit "v") (.val []) = (.val (lit "v"), none) ∧
    prefilledWorld.valSlots 5 = lit "x" ∧
    (HttpRequest (testEnv echoTransport) 0 (lit "POST") (lit "example.com")
      (some (.other (.val (lit "v")))) (some (.ptr (.other 5)))
      [WithMarshal (some fixtureMarshal), WithUnmarshal (some mergingUnmarshal)]
      prefilledWorld).1.isNil = true ∧
    (HttpRequest (testEnv echoTransport) 0 (lit "POST") (lit "example.com")
      (some (.other (.val (lit "v")))) (some (.ptr (.other 5)))
      [WithMarshal (some fixtureMarshal), WithUnmarshal (some mergingUnmarshal)]
      prefilledWorld).2.valSlots 5 = lit "xv" :=
  ⟨rfl, rfl, by decide, by decide, by decide⟩

/-- C3, amended: encode-then-decode round trip.  The transport answers the
request it is sent with a status code the judge accepts and a body equal to
the body of that request.  Then (i) a `*[]byte` payload `d` with a `*[]byte`
slot leaves the slot equal to `d`; (ii) a `*string` payload `s` with a
`*string` slot leaves the slot equal to `s`; (iii) a payload `v` of another
type with a slot of its type, and a marshal and unmarshal pair such that
unmarshalling what `v` marshals to, into the slot as it stands when the
response is decoded, gives `v`, leaves the slot equal to `v`; the returned
error is nil each time.  The options are any of the package's, with a status
cell in place. -/
theorem echo_round_trip (env : Env V) (ctx : Nat) (method addr : GoString)
    (req : Option (ReqPayload V)) (calls : List (OptCall V))
    (w : World V) (opt : reqOptions V) (request : Request) (w1 : World V)
    (code : Int) (cell : Nat)
    (hprep : prepare env ctx method addr req (calls.map OptCall.func) w
      = .ok (opt, request, w1))
    (hdo : env.Do opt.httpClient request
      = .ok { StatusCode := code, Body := .ok (request.Body.getD []) })
    (hacc : opt.codeJudger code = true)
    (hcell : opt.statusCode = some cell) :
    (∀ (d : Bytes) (slot : Nat), req = some (.bytes d) →
      (HttpRequest env ctx method addr req (some (.bytes slot))
        (calls.map OptCall.func) w).1 = .ret none ∧
      (HttpRequest env ctx method addr req (some (.bytes slot))
        (calls.map OptCall.func) w).2.byteSlots slot = d) ∧
    (∀ (s : GoString) (slot : Nat), req = some (.str s) →
      (HttpRequest env ctx method addr req (some (.str slot))
        (calls.map OptCall.func) w).1 = .ret none ∧
      (HttpRequest env ctx method addr req (some (.str slot))
        (calls.map OptCall.func) w).2.stringSlots slot = s) ∧
    (∀ (v : Target V) (p : Pointer), req = some (.other v) → p.fits v = true →
      (∀ data : Bytes, opt.marshaler v = .ok data →
        opt.unmarshaler data (targetAtDecode w1 cell code p) = (v, none)) →
      (HttpRequest env ctx method addr req (some (.ptr p))
        (calls.map OptCall.func) w).1 = .ret none ∧
      (HttpRequest env ctx method addr req (some (.ptr p))
        (calls.map OptCall.func) w).2.load p = v) := by
  obtain ⟨_, henc, _, _⟩ := prepare_ok env ctx method addr req calls w opt request w1 hprep
  have hrecv : ∀ resp : Option RespSlot,
      HttpRequest env ctx method addr req resp (calls.map OptCall.func) w
        = deferredLog opt method addr
            (receive env opt resp { StatusCode := code, Body := .ok (request.Body.getD []) }
              w1) := by
    intro resp
    rw [HttpRequest_of_prepare env ctx method addr req resp _ w opt request w1 hprep, hdo]
  refine ⟨?_, ?_, ?_⟩
  · intro d slot hreq
    subst hreq
    have hb : request.Body = some d := by
      simp only [encodePayload, Except.ok.injEq] at henc
      exact henc.symm
    rw [hrecv, deferredLog_result opt method addr _ cell hcell,
      (deferredLog_cells opt method addr _).2.1,
      receive_accepted env opt _ _ w1 (request.Body.getD []) cell rfl hcell hacc]
    simp [hb, setAt]
  · intro s slot hreq
    subst hreq
    have hb : request.Body = some s := by
      simp only [encodePayload, Except.ok.injEq] at henc
      exact henc.symm
    rw [hrecv, deferredLog_result opt method addr _ cell hcell,
      (deferredLog_cells opt method addr _).2.2.1,
      receive_accepted env opt _ _ w1 (request.Body.getD []) cell rfl hcell hacc]
    simp [hb, setAt]
  · intro v p hreq hfit hpair
    subst hreq
    obtain ⟨data, hm, hb⟩ : ∃ data, opt.marshaler v = .ok data ∧ request.Body = some data := by
      simp only [encodePayload] at henc
      cases hm : opt.marshaler v with
      | error e => simp [hm] at henc
      | ok data =>
        simp only [hm, Except.ok.injEq] at henc
        exact ⟨data, rfl, henc.symm⟩
    have hun := hpair data hm
    rw [hrecv, deferredLog_result opt method addr _ cell hcell, deferredLog_load,
      receive_accepted env opt _ _ w1 (request.Body.getD []) cell rfl hcell hacc]
    simp only [hb, Option.getD_some, afterStore_load, hun]
    exact ⟨trivial, World.load_save _ p v hfit⟩

/-- Witness of amended C3 on the echoing transport of the tests: the bytes
and the string of the tests come back in a `*[]byte` slot and in a `*string`
slot, and a value of another type comes back through the pair `tagMarshal`,
`tagUnmarshal` that `WithMarshal` and `WithUnmarshal` put in place of the
default pair. -/
theorem echo_round_trip_witness :
    ((HttpRequest (testEnv echoTransport) 0 (lit "POST") (lit "example.com")
        (some (.bytes (lit "\x7b\"foo\": \"bar\"\x7d"))) (some (.bytes 5))
        (([] : List (OptCall Bytes)).map OptCall.func) (World.init [])).1 = .ret none ∧
      (HttpRequest (testEnv echoTransport) 0 (lit "POST") (lit "example.com")
        (some (.bytes (lit "\x7b\"foo\": \"bar\"\x7d"))) (some (.bytes 5))
        (([] : List (OptCall Bytes)).map OptCall.func) (World.init [])).2.byteSlots 5
        = lit "\x7b\"foo\": \"bar\"\x7d") ∧
    ((HttpRequest (testEnv echoTransport) 0 (lit "POST") (lit "example.com")
        (some (.str (lit "\x7b\"foo\": \"bar\"\x7d"))) (some (.str 5))
        (([] : List (OptCall Bytes)).map OptCall.func) (World.init [])).1 = .ret none ∧
      (HttpRequest (testEnv echoTransport) 0 (lit "POST") (lit "example.com")
        (some (.str (lit "\x7b\"foo\": \"bar\"\x7d"))) (some (.str 5))
        (([] : List (OptCall Bytes)).map OptCall.func) (World.init [])).2.stringSlots 5
        = lit "\x7b\"foo\": \"bar\"\x7d") ∧
    ((HttpRequest (testEnv echoTransport) 0 (lit "POST") (lit "example.com")
        (some (.other (.val (lit "v")))) (some (.ptr (.other 5)))
        ([OptCall.withMarshal (some tagMarshal),
          OptCall.withUnmarshal (some tagUnmarshal)].map OptCall.func)
        prefilledWorld).1 = .ret none ∧
      (HttpRequest (testEnv echoTransport) 0 (lit "POST") (lit "example.com")
        (some (.other (.val (lit "v")))) (some (.ptr (.other 5)))
        ([OptCall.withMarshal (some tagMarshal),
          OptCall.withUnmarshal (some tagUnmarshal)].map OptCall.func)
        prefilledWorld).2.load (.other 5) = .val (lit "v")) :=
  ⟨(echo_round_trip (testEnv echoTransport) 0 (lit "POST") (lit "example.com")
      (some (.bytes (lit "\x7b\"foo\": \"bar\"\x7d"))) [] (World.init []) _ _ _ 200
      defaultStatusRef rfl rfl rfl rfl).1 _ 5 rfl,
    (echo_round_trip (testEnv echoTransport) 0 (lit "POST") (lit "example.com")
      (some (.str (lit "\x7b\"foo\": \"bar\"\x7d"))) [] (World.init []) _ _ _ 200
      defaultStatusRef rfl rfl rfl rfl).2.1 _ 5 rfl,
    (echo_round_trip (testEnv echoTransport) 0 (lit "POST") (lit "example.com")
      (some (.other (.val (lit "v"))))
      [OptCall.withMarshal (some tagMarshal), OptCall.withUnmarshal (some tagUnmarshal)]
      prefilledWorld _ _ _ 200 defaultStatusRef rfl rfl rfl rfl).2.2 _ (.other 5) rfl rfl
      (by
        intro data hm
        have hm2 : (Except.ok ((35 : UInt8) :: lit "v") : Except GoError Bytes) = .ok data := hm
        cases hm2
        rfl)⟩

/-- C7 at a GET with the one option `WithTraceHeaders(b3Header)` that is
answered 500: before the call the default header map holds exactly Accept
and Content-Type and the default status cell holds 0; after the call the
default header map also holds `x-b3-traceid: abc` and the default status cell
holds 500, because the copy `opt = defaultReqOption` shares both with the
package variable. -/
theorem default_configuration_is_mutated :
    (World.init ([] : Bytes)).maps defaultHeaderRef = defaultHeader ∧
    (World.init ([] : Bytes)).ints defaultStatusRef = 0 ∧
    (HttpRequest (testEnv (fixedTransport 500 [])) 0 (lit "GET") (lit "example.com")
        none none [WithTraceHeaders (some b3Header)] (World.init [])).2.maps defaultHeaderRef
      = defaultHeader ++ [(lit "x-b3-traceid", lit "abc")] ∧
    (HttpRequest (testEnv (fixedTransport 500 [])) 0 (lit "GET") (lit "example.com")
        none none [WithTraceHeaders (some b3Header)] (World.init [])).2.ints defaultStatusRef
      = 500 := by
  refine ⟨by decide, by decide, by decide, by decide⟩

/-- C8 as stated fails when the record already refers to `m`: on the record
`recordOnCallerMap`, whose header field is the caller's map at address 1,
`WithTraceHeaders(b3Header)` and then `WithHeader(m)` for that same map leave
the header field on `m`, and `m`, which had no entry `x-b3-traceid` before,
now holds `x-b3-traceid: abc`: the forwarded entry is not dropped.  Seen from
outside: the request made with `WithHeader(m)`, `WithTraceHeaders(b3Header)`,
`WithHeader(m)` carries the header `x-b3-traceid: abc`, which the transport
of the fixture sends back as the body. -/
theorem WithHeader_after_trace_keeps_entry_when_aliased :
    recordOnCallerMap.header = some 1 ∧
    GoMap.get (callerWorld.maps 1) (lit "x-b3-traceid") = none ∧
    (applyOpts [WithTraceHeaders (some b3Header), WithHeader (some 1)]
      recordOnCallerMap callerWorld).2.1.header = some 1 ∧
    GoMap.get ((applyOpts [WithTraceHeaders (some b3Header), WithHeader (some 1)]
      recordOnCallerMap callerWorld).2.2.maps 1) (lit "x-b3-traceid") = some (lit "abc") ∧
    (HttpRequest (testEnv traceEchoTransport) 0 (lit "GET") (lit "example.com") none
      (some (.str 0))
      [WithHeader (some 1), WithTraceHeaders (some b3Header), WithHeader (some 1)]
      callerWorld).2.stringSlots 0 = lit "abc" := by
  refine ⟨by decide, by decide, by decide, by decide, by decide⟩

/-- C8, amended: for every allocated map `m` and every non-nil header set
`t`, applying `WithTraceHeaders(t)` and then `WithHeader(m)` to an options
record whose header field is not already `m` leaves the header field on `m`
with the contents of `m` unchanged, so no forwarded entry is added; applying
`WithHeader(m)` and then `WithTraceHeaders(t)` to any record leaves the
header field on `m` and the contents equal to those of `m` overlaid with
`ForwardHeaders t`: a forwarded key has its forwarded value, any other key
what `m` had. -/
theorem header_option_ordering (o : reqOptions V) (w : World V) (m : Nat) (t : Header) :
    (o.header ≠ some m → m < w.nextMap →
      (applyOpts [WithTraceHeaders (some t), WithHeader (some m)] o w).1 = none ∧
      (applyOpts [WithTraceHeaders (some t), WithHeader (some m)] o w).2.1.header = some m ∧
      (applyOpts [WithTraceHeaders (some t), WithHeader (some m)] o w).2.2.maps m
        = w.maps m) ∧
    ((applyOpts [WithHeader (some m), WithTraceHeaders (some t)] o w).1 = none ∧
      (applyOpts [WithHeader (some m), WithTraceHeaders (some t)] o w).2.1.header = some m ∧
      ∀ k : GoString,
        GoMap.get ((applyOpts [WithHeader (some m), WithTraceHeaders (some t)] o w).2.2.maps m) k
          = match GoMap.get (ForwardHeaders t) k with
            | some v => some v
            | none => GoMap.get (w.maps m) k) := by
  constructor
  · intro hne hlt
    cases ho : o.header with
    | none =>
      have hm : ¬ m = w.nextMap := by omega
      simp [applyOpts, WithTraceHeaders, WithHeader, ho, setAt, hm]
    | some r =>
      have hm : ¬ m = r := by
        intro e
        apply hne
        rw [ho, e]
      simp [applyOpts, WithTraceHeaders, WithHeader, ho, setAt, hm]
  · refine ⟨by simp [applyOpts, WithTraceHeaders, WithHeader],
      by simp [applyOpts, WithTraceHeaders, WithHeader], ?_⟩
    intro k
    simp only [applyOpts, WithTraceHeaders, WithHeader, setAt, if_true]
    exact copyInto_get (ForwardHeaders t) (w.maps m) k (ForwardHeaders_nodup t)

/-- Witness of amended C8 on the default record, whose header field is the
default map, with the caller's map at address 1 (`Accept: text/plain`) and
the header set of the tests: in the first order the map keeps its contents,
in the second it gains `x-b3-traceid: abc` and keeps `Accept`. -/
theorem header_option_ordering_witness :
    ((applyOpts [WithTraceHeaders (some b3Header), WithHeader (some 1)]
        (defaultReqOption (testEnv echoTransport)) callerWorld).1 = none ∧
      (applyOpts [WithTraceHeaders (some b3Header), WithHeader (some 1)]
        (defaultReqOption (testEnv echoTransport)) callerWorld).2.1.header = some 1 ∧
      (applyOpts [WithTraceHeaders (some b3Header), WithHeader (some 1)]
        (defaultReqOption (testEnv echoTransport)) callerWorld).2.2.maps 1
        = callerWorld.maps 1) ∧
    ((applyOpts [WithHeader (some 1), WithTraceHeaders (some b3Header)]
        (defaultReqOption (testEnv echoTransport)) callerWorld).1 = none ∧
      (applyOpts [WithHeader (some 1), WithTraceHeaders (some b3Header)]
        (defaultReqOption (testEnv echoTransport)) callerWorld).2.1.header = some 1 ∧
      GoMap.get ((applyOpts [WithHeader (some 1), WithTraceHeaders (some b3Header)]
          (defaultReqOption (testEnv echoTransport)) callerWorld).2.2.maps 1)
          (lit "x-b3-traceid") = some (lit "abc") ∧
      GoMap.get ((applyOpts [WithHeader (some 1), WithTraceHeaders (some b3Header)]
          (defaultReqOption (testEnv echoTransport)) callerWorld).2.2.maps 1)
          (lit "Accept") = some (lit "text/plain")) := by
  have hfirst := (header_option_ordering (defaultReqOption (testEnv echoTransport))
    callerWorld 1 b3Header).1 (by decide) (by decide)
  have hsecond := (header_option_ordering (defaultReqOption (testEnv echoTransport))
    callerWorld 1 b3Header).2
  refine ⟨hfirst, hsecond.1, hsecond.2.1, ?_, ?_⟩
  · rw [hsecond.2.2 (lit "x-b3-traceid")]
    decide
  · rw [hsecond.2.2 (lit "Accept")]
    decide

end Httputil
